import Mathlib

/-!
Verification of the `sqlite-rust` read-only SQLite file reader.

This file is a shallow embedding of the repository's core into Lean 4:
byte buffers are `List Nat` (each element the value of a Rust `u8`),
Rust `String`/`&str` values are `List Nat` of their UTF-8 bytes, machine
integers are `Nat`/`Int` with explicit wrapping where the source relies
on it, and fallible Rust functions returning `anyhow::Result` become
`Except RsError`.  Rust panics (out-of-range slice indexing) are modelled
by the distinguished error `RsError.panicked`.  Unbounded recursion on
page numbers (the Rust code would loop forever on a cyclic page graph)
is made total with an explicit fuel argument; fuel exhaustion is an
`RsError.failure`, a branch that is unreachable for the acyclic trees the
theorems speak about.

Bitwise operations of the source are rendered arithmetically:
`(value << 7) | (byte & 0x7F)` is `value * 128 + byte % 128` (the OR is
on disjoint bit ranges, hence addition), and big-endian assembly
`u16::from_be_bytes` / `u32::from_be_bytes` is base-256 arithmetic.
-/

set_option maxRecDepth 20000

namespace SqliteRs

/-- Truncate to an unsigned byte: the value of a Rust `u8`. -/
def u8 (n : Nat) : Nat := n % 256

/-- Read the byte at index `i` of a buffer.  All reads in the source are
bounds-checked before indexing, so the default value is never observed. -/
def byteAt (data : List Nat) (i : Nat) : Nat := u8 (data.getD i 0)

/-- `u16::from_be_bytes` on two bytes. -/
def u16_be (a b : Nat) : Nat := u8 a * 256 + u8 b

/-- `u32::from_be_bytes` on four bytes. -/
def u32_be (a b c d : Nat) : Nat := ((u8 a * 256 + u8 b) * 256 + u8 c) * 256 + u8 d

/-- Interpret an unsigned 64-bit value as a Rust `i64` (two's complement). -/
def i64_of_u64 (n : Nat) : Int := if n < 2 ^ 63 then (n : Int) else (n : Int) - 2 ^ 64

/-- Rust `as u64` / `as usize` on an `i64` value (wrap modulo `2^64`). -/
def u64_of_i64 (i : Int) : Nat := (i % (2 ^ 64 : Int)).toNat

/-- Big-endian value of a byte list (`from_be_bytes` generalised). -/
def be_nat (bs : List Nat) : Nat := bs.foldl (fun acc b => acc * 256 + u8 b) 0

/-- Error model: `failure` is a `bail!`/`Err` return, `panicked` a Rust panic. -/
inductive RsError where
  | failure
  | panicked
deriving DecidableEq

/-- Result type standing for `anyhow::Result`. -/
abbrev RsResult (α : Type) := Except RsError α

instance {α : Type} [DecidableEq α] : DecidableEq (RsResult α) := fun a b =>
  match a, b with
  | .ok x, .ok y =>
    match decEq x y with
    | isTrue h => isTrue (by rw [h])
    | isFalse h => isFalse (fun hh => h (by cases hh; rfl))
  | .ok _, .error _ => isFalse (fun hh => by cases hh)
  | .error _, .ok _ => isFalse (fun hh => by cases hh)
  | .error x, .error y =>
    match decEq x y with
    | isTrue h => isTrue (by rw [h])
    | isFalse h => isFalse (fun hh => h (by cases hh; rfl))

/-- Tail-recursive list length with a forced accumulator (`List.length` of the
multi-kilobyte file literal otherwise exhausts the reducer; this is only an
evaluation-friendly spelling of `len()`). -/
def list_len_aux : List α → Nat → Nat
  | [], n => n
  | _ :: l, 0 => list_len_aux l 1
  | _ :: l, n + 1 => list_len_aux l (n + 2)

/-- Rust `len()` of a buffer. -/
def list_len (l : List α) : Nat := list_len_aux l 0

theorem list_len_aux_eq (l : List α) : ∀ n, list_len_aux l n = l.length + n := by
  induction l with
  | nil => intro n; simp [list_len_aux]
  | cons a l ih =>
    intro n
    cases n with
    | zero => rw [list_len_aux, ih]; simp [List.length_cons]
    | succ m => rw [list_len_aux, ih]; simp [List.length_cons]; omega

@[simp] theorem list_len_eq (l : List α) : list_len l = l.length := by
  rw [list_len, list_len_aux_eq]; omega

/-- UTF-8 bytes of an ASCII string literal (all literals used here are ASCII). -/
def ascii (s : String) : List Nat := s.toList.map Char.toNat

/-- ASCII whitespace test matching `char::is_whitespace` on ASCII input
(the source only ever trims ASCII SQL text). -/
def is_ws (b : Nat) : Bool := b == 32 || (9 ≤ b && b ≤ 13)

/-- Rust `str::trim` on byte lists (ASCII whitespace). -/
def trim_ascii (s : List Nat) : List Nat :=
  ((s.dropWhile is_ws).reverse.dropWhile is_ws).reverse

/-- Whether `p` is an initial segment of `s` (Rust `str::starts_with`). -/
def leads_with (s p : List Nat) : Bool := s.take p.length == p

/-- Rust `str::find` for a substring: index of the first occurrence. -/
def find_sub (p : List Nat) : List Nat → Option Nat
  | [] => if leads_with [] p then some 0 else none
  | b :: rest =>
    if leads_with (b :: rest) p then some 0
    else (find_sub p rest).map (· + 1)

/-- Rust `str::contains` for a substring. -/
def contains_sub (s p : List Nat) : Bool := (find_sub p s).isSome

/-- Rust `str::rfind` for a single byte: index of the last occurrence. -/
def rfind_byte (s : List Nat) (b : Nat) : Option Nat :=
  match s.reverse.findIdx? (· == b) with
  | none => none
  | some i => some (s.length - 1 - i)

/-- Rust `str::split` on a single byte (keeps empty fragments). -/
def split_byte (b : Nat) : List Nat → List (List Nat)
  | [] => [[]]
  | c :: rest =>
    let r := split_byte b rest
    if c == b then [] :: r
    else
      match r with
      | [] => [[c]]
      | x :: xs => (c :: x) :: xs

/-- Helper for `split_ws`: accumulates the current (reversed) token. -/
def split_ws_aux : List Nat → List Nat → List (List Nat)
  | cur, [] => if cur == [] then [] else [cur.reverse]
  | cur, c :: rest =>
    if is_ws c then
      if cur == [] then split_ws_aux [] rest else cur.reverse :: split_ws_aux [] rest
    else split_ws_aux (c :: cur) rest

/-- Rust `str::split_whitespace`: maximal non-whitespace runs. -/
def split_ws (s : List Nat) : List (List Nat) := split_ws_aux [] s

/-- ASCII lowercasing of a byte list, matching `str::to_lowercase` on the
ASCII SQL text the source applies it to. -/
def to_lower (s : List Nat) : List Nat :=
  s.map (fun b => if 65 ≤ b ∧ b ≤ 90 then b + 32 else b)

/-- Rust `str::eq_ignore_ascii_case`. -/
def eq_icase (a b : List Nat) : Bool := to_lower a == to_lower b

/-- Byte-lexicographic `<=` on strings, the Rust `&str` ordering. -/
def lex_le : List Nat → List Nat → Bool
  | [], _ => true
  | _ :: _, [] => false
  | x :: xs, y :: ys => if x < y then true else if y < x then false else lex_le xs ys

/-- Decimal digits of a natural number, most significant first (empty for 0). -/
def nat_digits : Nat → List Nat
  | 0 => []
  | n + 1 => nat_digits ((n + 1) / 10) ++ [48 + (n + 1) % 10]
decreasing_by exact Nat.div_lt_self (Nat.succ_pos _) (by omega)

/-- Decimal rendering of a natural number (Rust `u64`/`usize` `Display`). -/
def nat_to_string (n : Nat) : List Nat := if n = 0 then [48] else nat_digits n

/-- Decimal rendering of an integer (Rust `i64` `Display`). -/
def int_to_string (i : Int) : List Nat :=
  if i < 0 then 45 :: nat_to_string (-i).toNat else nat_to_string i.toNat

/-! ## Varint codec (`src/database/varint.rs`) -/

/-- Loop body of `read_varint`.  `rem + 1` is the number of loop iterations
still allowed (the Rust loop runs `i = 0..9`, the ninth byte being the
`rem = 0` case); `value` and `bytesRead` are the accumulator variables.
`(value << 7) | (byte & 0x7F)` is written `value * 128 + byte % 128` and
`(value << 8) | byte` is `value * 256 + byte`. -/
def read_varint_aux (data : List Nat) (offset : Nat) :
    Nat → Nat → Nat → RsResult (Nat × Nat)
  | 0, _, _ => .error .failure
  | rem + 1, value, bytesRead =>
    if offset + bytesRead ≥ data.length then .error .failure
    else
      let byte := byteAt data (offset + bytesRead)
      if rem = 0 then .ok (value * 256 + byte, bytesRead + 1)
      else
        let v := value * 128 + byte % 128
        if byte < 128 then .ok (v, bytesRead + 1)
        else read_varint_aux data offset rem v (bytesRead + 1)

/-- `read_varint` from `src/database/varint.rs`: returns `(value, bytes_read)`. -/
def read_varint (data : List Nat) (offset : Nat) : RsResult (Nat × Nat) :=
  read_varint_aux data offset 9 0 0

/-! ## Record decoder (`src/record.rs`) -/

/-- The `RecordValue` enum.  `float` carries the raw IEEE-754 bit pattern of
the 8 big-endian payload bytes (the bit-level content of the Rust `f64`);
`text` carries the UTF-8 bytes of the decoded string (the
`from_utf8_lossy` replacement of invalid UTF-8 is not modelled: every
buffer a theorem of this file touches holds valid ASCII). -/
inductive RecordValue where
  | null
  | int (v : Int)
  | float (bits : Nat)
  | zero
  | one
  | blob (bytes : List Nat)
  | text (bytes : List Nat)
  | reserved (code : Nat)
deriving DecidableEq

/-- `RecordValue::read_int`: big-endian two's-complement integer of `size`
bytes, sign-extended to 64 bits by `0xFF` padding and read as an `i64`. -/
def RecordValue.read_int (data : List Nat) (offset size : Nat) :
    RsResult (RecordValue × Nat) :=
  if offset + size > data.length then .error .failure
  else
    let bytes := (data.drop offset).take size
    let m := be_nat bytes
    let padded :=
      if size ≠ 0 ∧ 128 ≤ u8 (bytes.getD 0 0) then 2 ^ 64 - 2 ^ (8 * size) + m else m
    .ok (.int (i64_of_u64 padded), size)

/-- `RecordValue::from_type_and_data`: decode one column per the serial-type
table, returning the value and the number of payload bytes consumed. -/
def RecordValue.from_type_and_data (colType : Nat) (data : List Nat) (offset : Nat) :
    RsResult (RecordValue × Nat) :=
  if colType = 0 then .ok (.null, 0)
  else if colType = 1 then read_int data offset 1
  else if colType = 2 then read_int data offset 2
  else if colType = 3 then read_int data offset 3
  else if colType = 4 then read_int data offset 4
  else if colType = 5 then read_int data offset 6
  else if colType = 6 then read_int data offset 8
  else if colType = 7 then
    if offset + 8 > data.length then .error .failure
    else .ok (.float (be_nat ((data.drop offset).take 8)), 8)
  else if colType = 8 then .ok (.zero, 0)
  else if colType = 9 then .ok (.one, 0)
  else if colType = 10 ∨ colType = 11 then .ok (.reserved colType, 0)
  else if 12 ≤ colType ∧ colType % 2 = 0 then
    let len := (colType - 12) / 2
    if offset + len > data.length then .error .failure
    else .ok (.blob ((data.drop offset).take len), len)
  else if 13 ≤ colType ∧ colType % 2 = 1 then
    let len := (colType - 13) / 2
    if offset + len > data.length then .error .failure
    else .ok (.text ((data.drop offset).take len), len)
  else .error .failure

/-- `RecordValue::to_display_string`.  The `float` arm is a bit-level
stand-in: Rust formats the `f64` in decimal, which has no shallow
embedding; no claim of this file depends on the display form of a float. -/
def RecordValue.to_display_string : RecordValue → List Nat
  | .null => ascii ("NULL")
  | .int i => int_to_string i
  | .float bits => ascii ("~f64 bits ") ++ nat_to_string bits
  | .zero => [48]
  | .one => [49]
  | .text s => s
  | .blob b => ascii ("<BLOB ") ++ nat_to_string b.length ++ ascii (" bytes>")
  | .reserved r => ascii ("<RESERVED ") ++ nat_to_string r ++ ascii (">")

/-- The `RecordHeader` struct: declared header size and the serial types. -/
structure RecordHeader where
  size : Nat
  column_types : List Nat
deriving DecidableEq

/-- The `while pos < header_size` loop of `RecordHeader::from_bytes`.  Each
iteration consumes at least one byte, so `fuel = header size` iterations
always suffice; the fuel-exhaustion branch is unreachable. -/
def read_column_types (data : List Nat) (headerSize : Nat) :
    Nat → Nat → RsResult (List Nat)
  | fuel, pos =>
    if pos < headerSize then
      match fuel with
      | 0 => .error .failure
      | fuel + 1 =>
        match read_varint data pos with
        | .error e => .error e
        | .ok (t, n) =>
          match read_column_types data headerSize fuel (pos + n) with
          | .error e => .error e
          | .ok ts => .ok (t :: ts)
    else .ok []

/-- `RecordHeader::from_bytes`. -/
def RecordHeader.from_bytes (data : List Nat) : RsResult RecordHeader :=
  match read_varint data 0 with
  | .error e => .error e
  | .ok (headerSize, n) =>
    match read_column_types data headerSize headerSize n with
    | .error e => .error e
    | .ok ts => .ok ⟨headerSize, ts⟩

/-- The `Record` struct. -/
structure Record where
  header : RecordHeader
  body : List RecordValue
deriving DecidableEq

/-- The body loop of `Record::from_bytes`: decode one value per serial type,
advancing the data offset by the bytes consumed. -/
def read_body (data : List Nat) : List Nat → Nat → RsResult (List RecordValue)
  | [], _ => .ok []
  | t :: ts, off =>
    match RecordValue.from_type_and_data t data off with
    | .error e => .error e
    | .ok (v, n) =>
      match read_body data ts (off + n) with
      | .error e => .error e
      | .ok vs => .ok (v :: vs)

/-- `Record::from_bytes`. -/
def Record.from_bytes (data : List Nat) : RsResult Record :=
  match RecordHeader.from_bytes data with
  | .error e => .error e
  | .ok h =>
    match read_body data h.column_types h.size with
    | .error e => .error e
    | .ok vs => .ok ⟨h, vs⟩

/-- `Record::get_table_name`: the name when the record is a `table` entry. -/
def Record.get_table_name (r : Record) : Option (List Nat) :=
  match r.body.get? 0 with
  | some (.text t) =>
    if t = ascii ("table") then
      match r.body.get? 2 with
      | some (.text tbl) => some tbl
      | _ => none
    else none
  | _ => none

/-- `Record::get_sql_schema`: column 4 when it is text. -/
def Record.get_sql_schema (r : Record) : Option (List Nat) :=
  match r.body.get? 4 with
  | some (.text sql) => some sql
  | _ => none

/-- `Record::get_page_number`: column 3 as `usize` (an `i64` cast wraps). -/
def Record.get_page_number (r : Record) : RsResult Nat :=
  match r.body.get? 3 with
  | some (.int n) => .ok (u64_of_i64 n)
  | _ => .error .failure

/-! ## Cell decoder (`src/database/cell.rs`) -/

/-- The table-leaf `Cell` struct. -/
structure Cell where
  record_size : Nat
  row_id : Nat
  record : Record
deriving DecidableEq

/-- `Cell::from_bytes`: payload-size varint, row-id varint, then the record.
The Rust code slices `data[pos..pos + record_size]` without a bounds
check; an out-of-range slice is a panic. -/
def Cell.from_bytes (data : List Nat) (offset : Nat) : RsResult Cell :=
  match read_varint data offset with
  | .error e => .error e
  | .ok (recordSize, n1) =>
    match read_varint data (offset + n1) with
    | .error e => .error e
    | .ok (rowId, n2) =>
      let pos := offset + n1 + n2
      if pos + recordSize > data.length then .error .panicked
      else
        match Record.from_bytes ((data.drop pos).take recordSize) with
        | .error e => .error e
        | .ok r => .ok ⟨recordSize, rowId, r⟩

/-! ## DDL column extractor (`src/schema.rs`) -/

/-- The `ColumnInfo` struct. -/
structure ColumnInfo where
  name : List Nat
  index : Nat
  is_primary_key : Bool
deriving DecidableEq

/-- The `TableSchema` struct. -/
structure TableSchema where
  columns : List ColumnInfo
deriving DecidableEq

/-- The per-fragment loop of `TableSchema::from_create_sql`: fragments with
no word contribute no column; `index` is the enumeration index of the
fragment; a column is the row-id alias when its lowercased fragment
contains the substring `primary key`. -/
def columns_of_parts (parts : List (List Nat)) : List ColumnInfo :=
  parts.enum.filterMap (fun p =>
    let trimmed := trim_ascii p.2
    match split_ws trimmed with
    | [] => none
    | w :: _ => some ⟨w, p.1, contains_sub (to_lower trimmed) (ascii ("primary key"))⟩)

/-- `TableSchema::from_create_sql`: text between the first `(` and the last
`)`, split on commas. -/
def TableSchema.from_create_sql (sql : List Nat) : RsResult TableSchema :=
  match sql.findIdx? (· == 40) with
  | none => .error .failure
  | some start =>
    match rfind_byte sql 41 with
    | none => .error .failure
    | some endIdx =>
      if start ≥ endIdx then .error .failure
      else
        let columnsDef := (sql.drop (start + 1)).take (endIdx - (start + 1))
        .ok ⟨columns_of_parts (split_byte 44 columnsDef)⟩

/-! ## Database (`src/database.rs`) -/

/-- `DB_HEADER_SIZE` from `src/lib.rs`. -/
def DB_HEADER_SIZE : Nat := 100

/-- `BTREE_HEADER_SIZE` from `src/lib.rs`. -/
def BTREE_HEADER_SIZE : Nat := 8

/-- The `IndexCell` struct. -/
structure IndexCell where
  key : List Nat
  row_id : Nat
deriving DecidableEq

/-- The `SchemaObject` struct. -/
structure SchemaObject where
  object_type : List Nat
  name : List Nat
  tbl_name : List Nat
  rootpage : Nat
  sql : Option (List Nat)
deriving DecidableEq

/-- `SchemaObject::from_record`: the first five schema columns, `None` when
the record is too short or a column has the wrong type. -/
def SchemaObject.from_record (r : Record) : Option SchemaObject :=
  if r.body.length ≥ 4 then
    match r.body.get? 0, r.body.get? 1, r.body.get? 2, r.body.get? 3 with
    | some (.text t), some (.text n), some (.text tb), some (.int p) =>
      some ⟨t, n, tb, u64_of_i64 p,
        match r.body.get? 4 with
        | some (.text s) => some s
        | _ => none⟩
    | _, _, _, _ => none
  else none

/-- The `TableRow` struct. -/
structure TableRow where
  row_id : Nat
  values : List RecordValue
deriving DecidableEq

/-- The `TableRows` struct. -/
structure TableRows where
  columns : List ColumnInfo
  rows : List TableRow
deriving DecidableEq

/-- The `Database` struct: the opened file's bytes and the cached page size. -/
structure Database where
  file : List Nat
  page_size : Nat
deriving DecidableEq

/-- `Database::read_page_size`: `read_exact` of the 100-byte header fails
exactly when the file is shorter; the page size is the big-endian `u16`
at offset 16.  No validation is performed on the value. -/
def Database.read_page_size (file : List Nat) : RsResult Nat :=
  if list_len file < DB_HEADER_SIZE then .error .failure
  else .ok (u16_be (byteAt file 16) (byteAt file 17))

/-- `Database::new` (with the `File::open` I/O step elided: the file's bytes
are the input). -/
def Database.new (file : List Nat) : RsResult Database :=
  match Database.read_page_size file with
  | .error e => .error e
  | .ok ps => .ok ⟨file, ps⟩

/-- `Database::read_page_data`: seek to `(page_number - 1) * page_size` and
`read_exact` one page.  The subtraction and product are `usize`
arithmetic, hence the `% 2^64`; `read_exact` fails when fewer than
`page_size` bytes remain. -/
def Database.read_page_data (db : Database) (pageNum : Nat) : RsResult (List Nat) :=
  let off := (pageNum + (2 ^ 64 - 1)) % 2 ^ 64 * db.page_size % 2 ^ 64
  if list_len db.file < off + db.page_size then .error .failure
  else .ok ((db.file.drop off).take db.page_size)

/-- `Database::get_dbheader_offset`. -/
def get_dbheader_offset (pageNum : Nat) : Nat :=
  if pageNum = 1 then DB_HEADER_SIZE else 0

/-- `Database::get_cell_count`: big-endian `u16` at bytes 3–4 of the B-tree
header. -/
def Database.get_cell_count (pageData : List Nat) (pageNum : Nat) : RsResult Nat :=
  let off := get_dbheader_offset pageNum
  if off + 5 > pageData.length then .error .failure
  else .ok (u16_be (byteAt pageData (off + 3)) (byteAt pageData (off + 4)))

/-- `Database::get_cell_offsets`: the cell-pointer array, `cell_count`
big-endian `u16` offsets after the 8-byte B-tree header. -/
def Database.get_cell_offsets (pageData : List Nat) (pageNum : Nat) : RsResult (List Nat) :=
  match Database.get_cell_count pageData pageNum with
  | .error e => .error e
  | .ok cc =>
    let ptrStart := get_dbheader_offset pageNum + BTREE_HEADER_SIZE
    let ptrEnd := ptrStart + cc * 2
    if ptrEnd > pageData.length then .error .failure
    else .ok ((List.range cc).map (fun i =>
      u16_be (byteAt pageData (ptrStart + 2 * i)) (byteAt pageData (ptrStart + 2 * i + 1))))

/-- The cell loop of `Database::read_page`: parse the cell at each offset. -/
def cells_from_offsets (pageData : List Nat) : List Nat → RsResult (List Cell)
  | [] => .ok []
  | o :: os =>
    match Cell.from_bytes pageData o with
    | .error e => .error e
    | .ok c =>
      match cells_from_offsets pageData os with
      | .error e => .error e
      | .ok cs => .ok (c :: cs)

/-- `Database::read_page`. -/
def Database.read_page (db : Database) (pageNum : Nat) : RsResult (List Cell) :=
  match db.read_page_data pageNum with
  | .error e => .error e
  | .ok pageData =>
    match Database.get_cell_offsets pageData pageNum with
    | .error e => .error e
    | .ok offs => cells_from_offsets pageData offs

/-- The search loop of `Database::find_table_info`: first page-1 cell whose
record names the requested table. -/
def find_named_table (tableName : List Nat) : List Cell → RsResult Cell
  | [] => .error .failure
  | c :: cs =>
    match c.record.get_table_name with
    | some n => if n = tableName then .ok c else find_named_table tableName cs
    | none => find_named_table tableName cs

/-- `Database::find_table_info`. -/
def Database.find_table_info (db : Database) (tableName : List Nat) : RsResult Cell :=
  match db.read_page 1 with
  | .error e => .error e
  | .ok cells => find_named_table tableName cells

/-- `Database::get_col_names`. -/
def Database.get_col_names (db : Database) (tableName : List Nat) : RsResult (List ColumnInfo) :=
  match db.find_table_info tableName with
  | .error e => .error e
  | .ok tinfo =>
    match tinfo.record.get_sql_schema with
    | none => .error .failure
    | some sql =>
      match TableSchema.from_create_sql sql with
      | .error e => .error e
      | .ok sch => .ok sch.columns

/-- `Database::get_all_schema_objects`. -/
def Database.get_all_schema_objects (db : Database) : RsResult (List SchemaObject) :=
  match db.read_page 1 with
  | .error e => .error e
  | .ok cells => .ok (cells.filterMap (fun c => SchemaObject.from_record c.record))

/-- The needle `format!("on {} ({})", table_name, column_name)`. -/
def index_needle (tableName columnName : List Nat) : List Nat :=
  ascii ("on ") ++ tableName ++ ascii (" (") ++ columnName ++ ascii (")")

/-- `Database::find_index_for_column`: first schema object of type `index`
on the table whose lowercased SQL contains `on <table> (<column>)`. -/
def Database.find_index_for_column (db : Database) (tableName columnName : List Nat) :
    RsResult (Option SchemaObject) :=
  match db.get_all_schema_objects with
  | .error e => .error e
  | .ok objs => .ok (objs.find? (fun o =>
      o.object_type == ascii ("index") && o.tbl_name == tableName &&
        match o.sql with
        | some sql => contains_sub (to_lower sql) (index_needle tableName columnName)
        | none => false))

/-- `Database::read_page_number_from_cell`: big-endian `u32` at the offset. -/
def Database.read_page_number_from_cell (pageData : List Nat) (offset : Nat) : RsResult Nat :=
  if offset + 4 > pageData.length then .error .failure
  else .ok (u32_be (byteAt pageData offset) (byteAt pageData (offset + 1))
    (byteAt pageData (offset + 2)) (byteAt pageData (offset + 3)))

/-- `Database::read_rightmost_page`: big-endian `u32` at header bytes 8–11. -/
def Database.read_rightmost_page (pageData : List Nat) (dbheaderOffset : Nat) : RsResult Nat :=
  if dbheaderOffset + 12 > pageData.length then .error .failure
  else .ok (u32_be (byteAt pageData (dbheaderOffset + 8)) (byteAt pageData (dbheaderOffset + 9))
    (byteAt pageData (dbheaderOffset + 10)) (byteAt pageData (dbheaderOffset + 11)))

/-- `Database::read_index_cell`: payload-size varint, then the record; the
key is column 0 (text verbatim, otherwise its display form), the row id
column 1, which must be an integer. -/
def Database.read_index_cell (pageData : List Nat) (offset : Nat) : RsResult IndexCell :=
  match read_varint pageData offset with
  | .error e => .error e
  | .ok (payloadSize, n) =>
    let pos := offset + n
    if pos + payloadSize > pageData.length then .error .failure
    else
      match Record.from_bytes ((pageData.drop pos).take payloadSize) with
      | .error e => .error e
      | .ok record =>
        if record.body.length < 2 then .error .failure
        else
          match record.body.get? 0 with
          | none => .error .failure
          | some v =>
            let key := match v with
              | .text s => s
              | other => other.to_display_string
            match record.body.get? 1 with
            | some (.int id) => .ok ⟨key, u64_of_i64 id⟩
            | _ => .error .failure

/-- `Database::search_index_leaf_page_stack`: scan the leaf's cells, keeping
the row id of every cell that parses and whose key equals the search
value; cells that fail to parse are skipped silently. -/
def Database.search_index_leaf_page_stack (pageData : List Nat) (pageNum : Nat)
    (searchValue : List Nat) : RsResult (List Nat) :=
  match Database.get_cell_offsets pageData pageNum with
  | .error e => .error e
  | .ok offs => .ok (offs.filterMap (fun o =>
      match Database.read_index_cell pageData o with
      | .ok c => if c.key == searchValue then some c.row_id else none
      | .error _ => none))

/-- The cell loop of `Database::get_index_child_pages_proper`.  Returns the
accumulated child pages and whether the loop `break`-ed with
`found_target_range = true`.  Offsets with fewer than 4 bytes available
are skipped (`continue`); when the cell parses as an index cell the child
is taken only when `search_value <= key` (and the loop stops); when the
cell fails to parse its child is taken and the loop continues. -/
def index_child_pages_loop (pageData searchValue : List Nat) :
    List Nat → RsResult (List Nat × Bool)
  | [] => .ok ([], false)
  | o :: os =>
    if o + 4 > pageData.length then index_child_pages_loop pageData searchValue os
    else
      match Database.read_page_number_from_cell pageData o with
      | .error e => .error e
      | .ok child =>
        match Database.read_index_cell pageData o with
        | .ok icell =>
          if lex_le searchValue icell.key then .ok ([child], true)
          else index_child_pages_loop pageData searchValue os
        | .error _ =>
          match index_child_pages_loop pageData searchValue os with
          | .error e => .error e
          | .ok (cs, f) => .ok (child :: cs, f)

/-- `Database::get_index_child_pages_proper`.  Note that `read_index_cell`
is applied at the raw cell offset, whose first four bytes are the child
page pointer, not a payload-size varint — the reason the key read usually
fails and the traversal then descends into every child.  The final
`is_empty` refill branch of the source is unreachable (the rightmost
page is pushed whenever the loop did not break) but kept. -/
def Database.get_index_child_pages_proper (pageData : List Nat) (pageNum : Nat)
    (searchValue : List Nat) : RsResult (List Nat) :=
  let off := get_dbheader_offset pageNum
  match Database.get_cell_count pageData pageNum with
  | .error e => .error e
  | .ok cc =>
    match Database.read_rightmost_page pageData off with
    | .error e => .error e
    | .ok rightmost =>
      let ptrStart := off + 12
      let ptrEnd := ptrStart + cc * 2
      if ptrEnd > pageData.length then .error .failure
      else
        let offs := (List.range cc).map (fun i =>
          u16_be (byteAt pageData (ptrStart + 2 * i)) (byteAt pageData (ptrStart + 2 * i + 1)))
        match index_child_pages_loop pageData searchValue offs with
        | .error e => .error e
        | .ok (cs, found) =>
          let pages := if found then cs else cs ++ [rightmost]
          if pages = [] then
            .ok ((offs.filterMap (fun o =>
              (Database.read_page_number_from_cell pageData o).toOption)) ++ [rightmost])
          else .ok pages

/-- Run a fallible list-producing function on every element, concatenating
the results (the shape of the `for` loops that append to an accumulator). -/
def except_map_list (f : α → RsResult (List β)) : List α → RsResult (List β)
  | [] => .ok []
  | x :: xs =>
    match f x with
    | .error e => .error e
    | .ok ys =>
      match except_map_list f xs with
      | .error e => .error e
      | .ok zs => .ok (ys ++ zs)

/-- Run a fallible option-producing function on every element, returning the
first `some` (the shape of the early-return search loops). -/
def except_first_some (f : α → RsResult (Option β)) : List α → RsResult (Option β)
  | [] => .ok none
  | x :: xs =>
    match f x with
    | .error e => .error e
    | .ok (some b) => .ok (some b)
    | .ok none => except_first_some f xs

/-- `Database::traverse_index_for_value`, with fuel bounding the recursion
depth (the Rust recursion is unbounded and diverges on cyclic page
graphs).  Page type 10 is a leaf index page, type 2 an interior one. -/
def Database.traverse_index_for_value (db : Database) :
    Nat → Nat → List Nat → RsResult (List Nat)
  | 0, _, _ => .error .failure
  | fuel + 1, pageNum, searchValue =>
    match db.read_page_data pageNum with
    | .error e => .error e
    | .ok pageData =>
      let off := get_dbheader_offset pageNum
      if off ≥ pageData.length then .error .failure
      else
        let pageType := byteAt pageData off
        if pageType = 10 then
          Database.search_index_leaf_page_stack pageData pageNum searchValue
        else if pageType = 2 then
          match Database.get_index_child_pages_proper pageData pageNum searchValue with
          | .error e => .error e
          | .ok children =>
            except_map_list (fun c => db.traverse_index_for_value fuel c searchValue) children
        else .error .failure

/-- `Database::search_index`. -/
def Database.search_index (db : Database) (index : SchemaObject) (searchValue : List Nat)
    (fuel : Nat) : RsResult (List Nat) :=
  db.traverse_index_for_value fuel index.rootpage searchValue

/-- `Database::get_child_page_numbers`: every left-child pointer whose
4-byte read succeeds (failing offsets are skipped), then the rightmost
page from the interior header. -/
def Database.get_child_page_numbers (pageData : List Nat) (pageNum : Nat) : RsResult (List Nat) :=
  let off := get_dbheader_offset pageNum
  match Database.get_cell_count pageData pageNum with
  | .error e => .error e
  | .ok cc =>
    let ptrStart := off + 12
    let ptrEnd := ptrStart + cc * 2
    if ptrEnd > pageData.length then .error .failure
    else
      match Database.read_rightmost_page pageData off with
      | .error e => .error e
      | .ok rightmost =>
        let offs := (List.range cc).map (fun i =>
          u16_be (byteAt pageData (ptrStart + 2 * i)) (byteAt pageData (ptrStart + 2 * i + 1)))
        .ok ((offs.filterMap (fun o =>
          (Database.read_page_number_from_cell pageData o).toOption)) ++ [rightmost])

/-- `Database::collect_all_table_cells`, with fuel bounding the recursion
depth.  Page type 13 is a leaf table page, type 5 an interior one. -/
def Database.collect_all_table_cells (db : Database) : Nat → Nat → RsResult (List Cell)
  | 0, _ => .error .failure
  | fuel + 1, pageNum =>
    match db.read_page_data pageNum with
    | .error e => .error e
    | .ok pageData =>
      let off := get_dbheader_offset pageNum
      if off ≥ pageData.length then .error .failure
      else
        let pageType := byteAt pageData off
        if pageType = 13 then
          match Database.get_cell_offsets pageData pageNum with
          | .error e => .error e
          | .ok offs => cells_from_offsets pageData offs
        else if pageType = 5 then
          match Database.get_child_page_numbers pageData pageNum with
          | .error e => .error e
          | .ok children =>
            except_map_list (fun c => db.collect_all_table_cells fuel c) children
        else .error .failure

/-- `Database::create_table_row`: one value per declared column, in
declaration order; a `primary key` column gets the cell's row id as an
`i64`, any other column position beyond the record body gets `Null`. -/
def Database.create_table_row (cell : Cell) (columns : List ColumnInfo) : TableRow :=
  ⟨cell.row_id,
   columns.enum.map (fun p =>
     if p.2.is_primary_key then RecordValue.int (i64_of_u64 cell.row_id)
     else
       match cell.record.body.get? p.1 with
       | some v => v
       | none => RecordValue.null)⟩

/-- `Database::get_table_rows`. -/
def Database.get_table_rows (db : Database) (tableName : List Nat) (fuel : Nat) :
    RsResult TableRows :=
  match db.find_table_info tableName with
  | .error e => .error e
  | .ok tinfo =>
    match db.get_col_names tableName with
    | .error e => .error e
    | .ok columns =>
      match tinfo.record.get_page_number with
      | .error e => .error e
      | .ok pageNum =>
        match db.collect_all_table_cells fuel pageNum with
        | .error e => .error e
        | .ok cells => .ok ⟨columns, cells.map (fun c => Database.create_table_row c columns)⟩

/-- The leaf loop of `Database::search_table_for_row_id`: parse each cell
(propagating failures) and return the first with the target row id. -/
def search_leaf_cells (pageData : List Nat) (target : Nat) : List Nat → RsResult (Option Cell)
  | [] => .ok none
  | o :: os =>
    match Cell.from_bytes pageData o with
    | .error e => .error e
    | .ok c => if c.row_id = target then .ok (some c) else search_leaf_cells pageData target os

/-- `Database::search_table_for_row_id`, with fuel bounding the recursion. -/
def Database.search_table_for_row_id (db : Database) : Nat → Nat → Nat → RsResult (Option Cell)
  | 0, _, _ => .error .failure
  | fuel + 1, pageNum, target =>
    match db.read_page_data pageNum with
    | .error e => .error e
    | .ok pageData =>
      let off := get_dbheader_offset pageNum
      if off ≥ pageData.length then .error .failure
      else
        let pageType := byteAt pageData off
        if pageType = 13 then
          match Database.get_cell_offsets pageData pageNum with
          | .error e => .error e
          | .ok offs => search_leaf_cells pageData target offs
        else if pageType = 5 then
          match Database.get_child_page_numbers pageData pageNum with
          | .error e => .error e
          | .ok children =>
            except_first_some (fun c => db.search_table_for_row_id fuel c target) children
        else .error .failure

/-- `Database::get_table_row_by_id`. -/
def Database.get_table_row_by_id (db : Database) (tableName : List Nat) (rowId : Nat)
    (fuel : Nat) : RsResult (Option TableRow) :=
  match db.find_table_info tableName with
  | .error e => .error e
  | .ok tinfo =>
    match db.get_col_names tableName with
    | .error e => .error e
    | .ok columns =>
      match tinfo.record.get_page_number with
      | .error e => .error e
      | .ok pageNum =>
        match db.search_table_for_row_id fuel pageNum rowId with
        | .error e => .error e
        | .ok (some cell) => .ok (some (Database.create_table_row cell columns))
        | .ok none => .ok none

/-- The id loop of `Database::get_table_rows_by_ids`: ids whose lookup finds
no row are skipped silently; errors propagate. -/
def rows_by_ids_loop (db : Database) (tableName : List Nat) (fuel : Nat) :
    List Nat → RsResult (List TableRow)
  | [] => .ok []
  | rid :: rest =>
    match db.get_table_row_by_id tableName rid fuel with
    | .error e => .error e
    | .ok (some row) =>
      match rows_by_ids_loop db tableName fuel rest with
      | .error e => .error e
      | .ok rows => .ok (row :: rows)
    | .ok none => rows_by_ids_loop db tableName fuel rest

/-- `Database::get_table_rows_by_ids`. -/
def Database.get_table_rows_by_ids (db : Database) (tableName : List Nat) (rowIds : List Nat)
    (fuel : Nat) : RsResult TableRows :=
  match db.get_col_names tableName with
  | .error e => .error e
  | .ok columns =>
    match rows_by_ids_loop db tableName fuel rowIds with
    | .error e => .error e
    | .ok rows => .ok ⟨columns, rows⟩

/-! ## Query executor pieces (`src/commands.rs`) -/

/-- The `ComparisonOperator` enum. -/
inductive ComparisonOperator where
  | equal
  | notEqual
  | lessThan
  | lessThanOrEqual
  | greaterThan
  | greaterThanOrEqual
deriving DecidableEq

/-- The `WhereCondition` struct. -/
structure WhereCondition where
  column_name : List Nat
  operator : ComparisonOperator
  value : List Nat
deriving DecidableEq

/-- `WhereCondition::parse_value`: strip one pair of surrounding single or
double quotes verbatim, else take the value bare.  On a one-byte value
consisting of a single quote both `starts_with` and `ends_with` hold and
the Rust slice `value[1..value.len()-1]` is `[1..0]`, which panics. -/
def WhereCondition.parse_value (value : List Nat) : RsResult (List Nat) :=
  let v := trim_ascii value
  if v.head? = some 39 ∧ v.getLast? = some 39 then
    if v.length = 1 then .error .panicked
    else .ok ((v.drop 1).take (v.length - 2))
  else if v.head? = some 34 ∧ v.getLast? = some 34 then
    if v.length = 1 then .error .panicked
    else .ok ((v.drop 1).take (v.length - 2))
  else .ok v

/-- `WhereCondition::parse`: trim, then locate `" = "`, then `" != "`. -/
def WhereCondition.parse (whereClause : List Nat) : RsResult WhereCondition :=
  let wc := trim_ascii whereClause
  match find_sub (ascii (" = ")) wc with
  | some pos =>
    let columnName := trim_ascii (wc.take pos)
    match WhereCondition.parse_value (trim_ascii (wc.drop (pos + 3))) with
    | .error e => .error e
    | .ok v => .ok ⟨columnName, .equal, v⟩
  | none =>
    match find_sub (ascii (" != ")) wc with
    | some pos =>
      let columnName := trim_ascii (wc.take pos)
      match WhereCondition.parse_value (trim_ascii (wc.drop (pos + 4))) with
      | .error e => .error e
      | .ok v => .ok ⟨columnName, .notEqual, v⟩
    | none => .error .failure

/-- `WhereCondition::matches`: compare the display form of the cell value
with the literal right-hand side. -/
def WhereCondition.matches (cond : WhereCondition) (v : RecordValue) : Bool :=
  let s := v.to_display_string
  match cond.operator with
  | .equal => s == cond.value
  | .notEqual => s != cond.value
  | _ => false

/-- `apply_where_filter`: resolve the condition column case-insensitively,
then keep the rows whose value at that position matches. -/
def apply_where_filter (tableData : TableRows) (cond : WhereCondition) : RsResult TableRows :=
  match tableData.columns.findIdx? (fun col => eq_icase col.name cond.column_name) with
  | none => .error .failure
  | some ci =>
    .ok ⟨tableData.columns,
      tableData.rows.filter (fun row =>
        match row.values.get? ci with
        | some v => cond.matches v
        | none => false)⟩

/-- The index-resolution loop of `extract_columns`. -/
def resolve_column_indices (columns : List ColumnInfo) : List (List Nat) → RsResult (List Nat)
  | [] => .ok []
  | n :: ns =>
    match columns.findIdx? (fun col => eq_icase col.name n) with
    | none => .error .failure
    | some i =>
      match resolve_column_indices columns ns with
      | .error e => .error e
      | .ok idxs => .ok (i :: idxs)

/-- `extract_columns`: project each row to the requested columns,
substituting `Null` for positions beyond the row's value list. -/
def extract_columns (tableData : TableRows) (columnNames : List (List Nat)) :
    RsResult (List (List RecordValue)) :=
  match resolve_column_indices tableData.columns columnNames with
  | .error e => .error e
  | .ok idxs =>
    .ok (tableData.rows.map (fun row =>
      idxs.map (fun i =>
        match row.values.get? i with
        | some v => v
        | none => RecordValue.null)))

/-- The index branch of `handle_select_columns` (commands.rs lines 224–232):
probe the index for the row ids, then fetch those rows. -/
def select_index_path (db : Database) (tableName : List Nat) (cond : WhereCondition)
    (index : SchemaObject) (fuel : Nat) : RsResult TableRows :=
  match db.search_index index cond.value fuel with
  | .error e => .error e
  | .ok rowIds => db.get_table_rows_by_ids tableName rowIds fuel

/-- The full-scan branch of `handle_select_columns` (commands.rs lines
233–237): read every row, then filter. -/
def select_full_scan_path (db : Database) (tableName : List Nat) (cond : WhereCondition)
    (fuel : Nat) : RsResult TableRows :=
  match db.get_table_rows tableName fuel with
  | .error e => .error e
  | .ok allData => apply_where_filter allData cond

/-! ## A concrete database image

A well-formed little SQLite database, page size 512, five pages:

* page 1: `sqlite_schema` leaf with two rows — table `t` (root page 2, SQL
  `CREATE TABLE t (c text)`) and index `idx` on `t (c)` (root page 3);
* page 2: table leaf, rows `(1, "a")`, `(2, "a")`, `(3, "a")`;
* page 3: index interior node: one cell (left child page 4) carrying the
  index entry `("a", 2)`, rightmost child page 5 — in the SQLite format
  interior index cells hold real index entries;
* page 4: index leaf with entry `("a", 1)`;
* page 5: index leaf with entry `("a", 3)`.

So the index holds exactly the entries `("a",1)`, `("a",2)`, `("a",3)`,
matching the table. -/

/-- Zero padding. -/
def pad (n : Nat) : List Nat := List.replicate n 0

/-- Schema record of table `t`: `("table", "t", "t", 2, "CREATE TABLE t (c text)")`. -/
def sample_record_table : List Nat :=
  [6, 23, 15, 15, 1, 59] ++ ascii ("table") ++ ascii ("t") ++ ascii ("t") ++ [2]
    ++ ascii ("CREATE TABLE t (c text)")

/-- Schema record of index `idx`: `("index", "idx", "t", 3, "CREATE INDEX idx on t (c)")`. -/
def sample_record_index : List Nat :=
  [6, 23, 19, 15, 1, 63] ++ ascii ("index") ++ ascii ("idx") ++ ascii ("t") ++ [3]
    ++ ascii ("CREATE INDEX idx on t (c)")

/-- Page 1: 100-byte database header (page size 512 at offset 16), then a
table-leaf B-tree with the two schema cells at offsets 430 and 469. -/
def sample_page1 : List Nat :=
  (pad 16 ++ [2, 0] ++ pad 82)
    ++ [13, 0, 0, 0, 2, 1, 174, 0] ++ [1, 174, 1, 213] ++ pad 318
    ++ ([37, 1] ++ sample_record_table) ++ ([41, 2] ++ sample_record_index)

/-- A table-leaf cell for row `(rid, "a")`: payload size 3, row id, record
`[header 2, serial 15] ++ "a"`. -/
def sample_tcell (rid : Nat) : List Nat := [3, rid, 2, 15, 97]

/-- Page 2: table leaf with the three row cells at offsets 497, 502, 507. -/
def sample_page2 : List Nat :=
  [13, 0, 0, 0, 3, 1, 241, 0] ++ [1, 241, 1, 246, 1, 251] ++ pad 483
    ++ sample_tcell 1 ++ sample_tcell 2 ++ sample_tcell 3

/-- Page 3: index interior node, one cell at offset 502 (left child 4,
payload `("a", 2)`), rightmost child 5. -/
def sample_page3 : List Nat :=
  [2, 0, 0, 0, 1, 1, 246, 0, 0, 0, 0, 5] ++ [1, 246] ++ pad 488
    ++ [0, 0, 0, 4, 5, 3, 15, 1, 97, 2]

/-- An index-leaf page with the single entry `("a", rid)` at offset 506. -/
def sample_index_leaf (rid : Nat) : List Nat :=
  [10, 0, 0, 0, 1, 1, 250, 0] ++ [1, 250] ++ pad 496 ++ [5, 3, 15, 1, 97, rid]

/-- The five-page database file. -/
def sampleFile : List Nat :=
  sample_page1 ++ sample_page2 ++ sample_page3 ++ sample_index_leaf 1 ++ sample_index_leaf 3

/-- The opened sample database. -/
def sampleDb : Database := ⟨sampleFile, 512⟩

/-- The schema object `find_index_for_column` discovers for `t`/`c`. -/
def sampleIdxObj : SchemaObject :=
  ⟨ascii ("index"), ascii ("idx"), ascii ("t"), 3, some (ascii ("CREATE INDEX idx on t (c)"))⟩

/-- The condition `WHERE c = 'a'` after parsing. -/
def sampleCond : WhereCondition := ⟨ascii ("c"), .equal, ascii ("a")⟩

/-- The declared columns of `t`. -/
def sampleCols : List ColumnInfo := [⟨ascii ("c"), 0, false⟩]

/-- Row `rid` of `t` as the executor returns it. -/
def sampleRow (rid : Nat) : TableRow := ⟨rid, [.text (ascii ("a"))]⟩

/-! ## Claim C1 -/

/-- Claim C1 is false as stated: on the five-page sample database — whose
index B-tree is well formed and holds exactly the entries of the table —
the query `SELECT ... FROM t WHERE c = 'a'` yields rows `{1, 2, 3}` through
the full-scan path but only `{1, 3}` through the index path: the entry
`("a", 2)` lives in the interior index cell, and `traverse_index_for_value`
only ever emits row ids from leaf pages.  The result sets differ at row 2. -/
theorem C1_counterexample :
    (Database.new sampleFile).map (fun d => d.page_size) = .ok 512
    ∧ sampleDb.find_index_for_column (ascii ("t")) (ascii ("c")) = .ok (some sampleIdxObj)
    ∧ sampleDb.search_index sampleIdxObj (ascii ("a")) 3 = .ok [1, 3]
    ∧ select_index_path sampleDb (ascii ("t")) sampleCond sampleIdxObj 3
        = .ok ⟨sampleCols, [sampleRow 1, sampleRow 3]⟩
    ∧ select_full_scan_path sampleDb (ascii ("t")) sampleCond 3
        = .ok ⟨sampleCols, [sampleRow 1, sampleRow 2, sampleRow 3]⟩
    ∧ sampleRow 2 ∈ [sampleRow 1, sampleRow 2, sampleRow 3]
    ∧ sampleRow 2 ∉ [sampleRow 1, sampleRow 3] := by
  refine ⟨by decide, by decide, by decide, by decide, by decide, by decide, by decide⟩

/-! ## Claim C6 -/

/-- A 100-byte file whose page-size field decodes to 300. -/
def c6File : List Nat := pad 16 ++ [1, 44] ++ pad 82

/-- Claim C6 is false in its validation half: this 100-byte file declares
page size 300 — not a power of two in [512, 65536] — yet `Database::new`
succeeds and caches 300.  `read_page_size` performs no validation at all. -/
theorem C6_counterexample :
    c6File.length = 100
    ∧ u16_be 1 44 = 300
    ∧ (300 : Nat) ∉ [512, 1024, 2048, 4096, 8192, 16384, 32768, 65536]
    ∧ Database.new c6File = .ok ⟨c6File, 300⟩ := by decide

/-- Claim C6 amended: `Database::new` fails exactly for files shorter than
the 100-byte header; on any longer file it succeeds — with no validation of
the page size — and caches the big-endian 16-bit value at offset 16. -/
theorem C6_amended : ∀ file : List Nat,
    (file.length < 100 → Database.new file = .error .failure)
    ∧ (100 ≤ file.length →
        Database.new file = .ok ⟨file, u16_be (byteAt file 16) (byteAt file 17)⟩) := by
  intro file
  constructor
  · intro h
    simp only [Database.new, Database.read_page_size, list_len_eq, DB_HEADER_SIZE]
    rw [if_pos (by omega)]
  · intro h
    simp only [Database.new, Database.read_page_size, list_len_eq, DB_HEADER_SIZE]
    rw [if_neg (by omega)]

/-- Witness for `C6_amended` at two concrete files. -/
theorem C6_amended_witness :
    Database.new [7] = .error .failure ∧ Database.new c6File = .ok ⟨c6File, 300⟩ := by
  constructor
  · exact (C6_amended [7]).1 (by decide)
  · have h := (C6_amended c6File).2 (by decide)
    rw [show u16_be (byteAt c6File 16) (byteAt c6File 17) = 300 from by decide] at h
    exact h

/-! ## Claim C7 -/

theorem trim_ascii_rd (s : List Nat) :
    trim_ascii s = List.rdropWhile is_ws (List.dropWhile is_ws s) := rfl

theorem trim_ascii_idem (s : List Nat) : trim_ascii (trim_ascii s) = trim_ascii s := by
  rw [trim_ascii_rd, trim_ascii_rd]
  have hhead : List.dropWhile is_ws (List.rdropWhile is_ws (List.dropWhile is_ws s))
      = List.rdropWhile is_ws (List.dropWhile is_ws s) := by
    rcases h : List.rdropWhile is_ws (List.dropWhile is_ws s) with _ | ⟨a, l⟩
    · simp
    · have hp := List.rdropWhile_prefix is_ws (List.dropWhile is_ws s)
      rw [h] at hp
      obtain ⟨u, hu⟩ := hp
      have ha : (List.dropWhile is_ws s).head? = some a := by
        rw [← hu]; rfl
      have hnot : is_ws a = false := by
        have hh := List.head?_dropWhile_not is_ws s
        rw [ha] at hh
        exact hh
      rw [List.dropWhile_cons, hnot]
      simp
  rw [hhead, List.rdropWhile_idempotent]

theorem eq_singleton_of_len_one (raw : List Nat) (a : Nat)
    (h1 : raw.length = 1) (h2 : raw.head? = some a) : raw = [a] := by
  rcases raw with _ | ⟨x, xs⟩
  · simp at h2
  · rcases xs with _ | ⟨y, ys⟩
    · simp at h2; rw [h2]
    · simp at h1

/-- Full characterization of `parse_value` on an already-trimmed input: a
lone quote byte panics, a matching quote pair is stripped verbatim,
anything else is taken bare. -/
theorem parse_value_eq (raw : List Nat) (hr : trim_ascii raw = raw) :
    WhereCondition.parse_value raw =
      if raw = [39] ∨ raw = [34] then .error .panicked
      else .ok (if (raw.head? = some 39 ∧ raw.getLast? = some 39)
          ∨ (raw.head? = some 34 ∧ raw.getLast? = some 34)
          then (raw.drop 1).take (raw.length - 2) else raw) := by
  unfold WhereCondition.parse_value
  rw [hr]
  by_cases h39 : raw.head? = some 39 ∧ raw.getLast? = some 39
  · rw [if_pos h39]
    by_cases hl : raw.length = 1
    · have : raw = [39] := eq_singleton_of_len_one raw 39 hl h39.1
      rw [if_pos hl, if_pos (Or.inl this)]
    · have hne : ¬ (raw = [39] ∨ raw = [34]) := by
        rintro (h | h) <;> rw [h] at hl <;> simp at hl
      rw [if_neg hl, if_neg hne, if_pos (Or.inl h39)]
  · rw [if_neg h39]
    by_cases h34 : raw.head? = some 34 ∧ raw.getLast? = some 34
    · rw [if_pos h34]
      by_cases hl : raw.length = 1
      · have : raw = [34] := eq_singleton_of_len_one raw 34 hl h34.1
        rw [if_pos hl, if_pos (Or.inr this)]
      · have hne : ¬ (raw = [39] ∨ raw = [34]) := by
          rintro (h | h) <;> rw [h] at hl <;> simp at hl
        rw [if_neg hl, if_neg hne, if_pos (Or.inr h34)]
    · rw [if_neg h34]
      have hne : ¬ (raw = [39] ∨ raw = [34]) := by
        rintro (h | h) <;> rw [h] at h39 h34 <;> simp at h39 h34
      rw [if_neg hne, if_neg (by tauto)]

/-- The clause `c = '` (a lone single quote as right-hand side). -/
def c7Clause : List Nat := ascii ("c = ") ++ [39]

/-- Claim C7 is false as stated: the clause `c = '` contains the substring
`" = "`, yet `WhereCondition::parse` does not succeed — `parse_value`
slices `value[1..0]` and panics. -/
theorem C7_counterexample :
    contains_sub c7Clause (ascii (" = ")) = true
    ∧ WhereCondition.parse c7Clause = .error .panicked := by decide

/-- Claim C7 amended: `parse` trims the clause and succeeds exactly when the
trimmed clause contains `" = "` (preferred) or `" != "` and the trimmed
right-hand side is not a lone single or double quote byte (on which the
slice `value[1..0]` panics); on success one pair of surrounding single or
double quotes is stripped verbatim, otherwise the value is taken bare; with
neither operator substring it returns an error. -/
theorem C7_amended (clause : List Nat) :
    (find_sub (ascii (" = ")) (trim_ascii clause) = none →
     find_sub (ascii (" != ")) (trim_ascii clause) = none →
     WhereCondition.parse clause = .error .failure)
    ∧ (∀ pos raw, find_sub (ascii (" = ")) (trim_ascii clause) = some pos →
        raw = trim_ascii ((trim_ascii clause).drop (pos + 3)) →
        ((raw = [39] ∨ raw = [34]) → WhereCondition.parse clause = .error .panicked)
        ∧ (¬(raw = [39] ∨ raw = [34]) →
            WhereCondition.parse clause =
              .ok ⟨trim_ascii ((trim_ascii clause).take pos), .equal,
                if (raw.head? = some 39 ∧ raw.getLast? = some 39)
                  ∨ (raw.head? = some 34 ∧ raw.getLast? = some 34)
                then (raw.drop 1).take (raw.length - 2) else raw⟩))
    ∧ (∀ pos raw, find_sub (ascii (" = ")) (trim_ascii clause) = none →
        find_sub (ascii (" != ")) (trim_ascii clause) = some pos →
        raw = trim_ascii ((trim_ascii clause).drop (pos + 4)) →
        ((raw = [39] ∨ raw = [34]) → WhereCondition.parse clause = .error .panicked)
        ∧ (¬(raw = [39] ∨ raw = [34]) →
            WhereCondition.parse clause =
              .ok ⟨trim_ascii ((trim_ascii clause).take pos), .notEqual,
                if (raw.head? = some 39 ∧ raw.getLast? = some 39)
                  ∨ (raw.head? = some 34 ∧ raw.getLast? = some 34)
                then (raw.drop 1).take (raw.length - 2) else raw⟩)) := by
  refine ⟨?_, ?_, ?_⟩
  · intro h1 h2
    simp only [WhereCondition.parse, h1, h2]
  · intro pos raw h1 hraw
    subst hraw
    constructor
    · intro hq
      simp only [WhereCondition.parse, h1]
      rw [parse_value_eq _ (trim_ascii_idem _), if_pos hq]
    · intro hq
      simp only [WhereCondition.parse, h1]
      rw [parse_value_eq _ (trim_ascii_idem _), if_neg hq]
  · intro pos raw h1 h2 hraw
    subst hraw
    constructor
    · intro hq
      simp only [WhereCondition.parse, h1, h2]
      rw [parse_value_eq _ (trim_ascii_idem _), if_pos hq]
    · intro hq
      simp only [WhereCondition.parse, h1, h2]
      rw [parse_value_eq _ (trim_ascii_idem _), if_neg hq]

/-- Witness for `C7_amended`: an unsupported operator errors, a plain
equality clause parses. -/
theorem C7_amended_witness :
    WhereCondition.parse (ascii ("c < 3")) = .error .failure
    ∧ WhereCondition.parse (ascii ("c = 42")) = .ok ⟨[99], .equal, [52, 50]⟩ := by
  constructor
  · exact (C7_amended (ascii ("c < 3"))).1 (by decide) (by decide)
  · have h := ((C7_amended (ascii ("c = 42"))).2.1 1 _ (by decide) rfl).2 (by decide)
    rw [h]; decide

/-! ## Claim C2 -/

theorem be_nat_foldl_lt (bs : List Nat) : ∀ acc,
    List.foldl (fun acc b => acc * 256 + u8 b) acc bs < (acc + 1) * 256 ^ bs.length := by
  induction bs with
  | nil => intro acc; simp
  | cons b rest ih =>
    intro acc
    have h := ih (acc * 256 + u8 b)
    have hb : u8 b < 256 := Nat.mod_lt _ (by norm_num)
    calc List.foldl (fun acc b => acc * 256 + u8 b) (acc * 256 + u8 b) rest
        < (acc * 256 + u8 b + 1) * 256 ^ rest.length := h
      _ ≤ ((acc + 1) * 256) * 256 ^ rest.length := by
          have : acc * 256 + u8 b + 1 ≤ (acc + 1) * 256 := by nlinarith
          exact Nat.mul_le_mul_right _ this
      _ = (acc + 1) * 256 ^ (b :: rest).length := by
          rw [List.length_cons]; ring

theorem be_nat_foldl_ge (bs : List Nat) : ∀ acc,
    acc * 256 ^ bs.length ≤ List.foldl (fun acc b => acc * 256 + u8 b) acc bs := by
  induction bs with
  | nil => intro acc; simp
  | cons b rest ih =>
    intro acc
    have h := ih (acc * 256 + u8 b)
    calc acc * 256 ^ (b :: rest).length = (acc * 256) * 256 ^ rest.length := by
          rw [List.length_cons]; ring
      _ ≤ (acc * 256 + u8 b) * 256 ^ rest.length := Nat.mul_le_mul_right _ (by omega)
      _ ≤ _ := h

theorem be_nat_lt (bs : List Nat) : be_nat bs < 256 ^ bs.length := by
  have h := be_nat_foldl_lt bs 0
  simpa [be_nat] using h

theorem be_nat_cons (b : Nat) (rest : List Nat) :
    be_nat (b :: rest) = List.foldl (fun acc c => acc * 256 + u8 c) (u8 b) rest := by
  simp [be_nat]

theorem i64_of_u64_low (n : Nat) (h : n < 2 ^ 63) : i64_of_u64 n = (n : Int) := if_pos h

theorem i64_of_u64_high (n : Nat) (h1 : 2 ^ 63 ≤ n) :
    i64_of_u64 n = (n : Int) - 2 ^ 64 := by
  unfold i64_of_u64; rw [if_neg (by omega)]

theorem pow_256_eq (w : Nat) : (256 : Nat) ^ w = 2 ^ (8 * w) := by
  rw [show (256 : Nat) = 2 ^ 8 from by norm_num, ← Nat.pow_mul]

theorem read_int_eq (data : List Nat) (offset w : Nat) (hw1 : 1 ≤ w) (hw8 : w ≤ 8)
    (h : offset + w ≤ data.length) :
    RecordValue.read_int data offset w =
      .ok (.int ((be_nat ((data.drop offset).take w) : Int) -
        (if 128 ≤ byteAt data offset then (2 : Int) ^ (8 * w) else 0)), w) := by
  have hlen : ((data.drop offset).take w).length = w := by
    simp [List.length_take, List.length_drop]; omega
  have hget : ((data.drop offset).take w).getD 0 0 = data.getD offset 0 := by
    have h1 : ((data.drop offset).take w)[0]? = (data.drop offset)[0]? :=
      List.getElem?_take_of_lt (by omega)
    have h2 : (data.drop offset)[0]? = data[offset + 0]? := List.getElem?_drop data offset 0
    simp only [List.getD_eq_getElem?_getD, h1, h2, Nat.add_zero]
  have hbyte : u8 (((data.drop offset).take w).getD 0 0) = byteAt data offset := by
    rw [hget]; rfl
  have hm : be_nat ((data.drop offset).take w) < 2 ^ (8 * w) := by
    have hh := be_nat_lt ((data.drop offset).take w)
    rw [hlen, pow_256_eq] at hh
    exact hh
  have hpow : (2 : Nat) ^ (8 * w) ≤ 2 ^ 64 :=
    Nat.pow_le_pow_right (by norm_num) (by omega)
  simp only [RecordValue.read_int]
  rw [if_neg (by omega)]
  by_cases hneg : 128 ≤ byteAt data offset
  · rw [if_pos (⟨by omega, by rw [hbyte]; exact hneg⟩ :
      w ≠ 0 ∧ 128 ≤ u8 (((data.drop offset).take w).getD 0 0))]
    rw [if_pos hneg]
    have hmlow : w = 8 → 2 ^ 63 ≤ be_nat ((data.drop offset).take w) := by
      intro hw
      rcases hb : (data.drop offset).take w with _ | ⟨b, rest⟩
      · rw [hb] at hlen; simp at hlen; omega
      · have hrlen : rest.length = 7 := by
          rw [hb] at hlen; simp at hlen; omega
        rw [be_nat_cons]
        have hgeb : 128 ≤ u8 b := by
          have hx : ((data.drop offset).take w).getD 0 0 = b := by rw [hb]; rfl
          rw [← hbyte, hx] at hneg
          exact hneg
        calc (2 : Nat) ^ 63 = 128 * 256 ^ 7 := by norm_num
          _ ≤ u8 b * 256 ^ 7 := Nat.mul_le_mul_right _ hgeb
          _ = u8 b * 256 ^ rest.length := by rw [hrlen]
          _ ≤ _ := be_nat_foldl_ge rest (u8 b)
    have hge : 2 ^ 63 ≤ 2 ^ 64 - 2 ^ (8 * w) + be_nat ((data.drop offset).take w) := by
      by_cases hw : w = 8
      · have h1 := hmlow hw
        rw [hw] at *
        omega
      · have h8 : 8 * w ≤ 56 := by omega
        have h56 : (2 : Nat) ^ (8 * w) ≤ 2 ^ 56 := Nat.pow_le_pow_right (by norm_num) h8
        have h64 : (2 : Nat) ^ 63 + 2 ^ 56 ≤ 2 ^ 64 := by norm_num
        omega
    rw [i64_of_u64_high _ hge]
    congr 2
    have hcast : ((2 ^ 64 - 2 ^ (8 * w) + be_nat ((data.drop offset).take w) : Nat) : Int)
        = 2 ^ 64 - 2 ^ (8 * w) + (be_nat ((data.drop offset).take w) : Int) := by
      rw [Nat.cast_add, Nat.cast_sub hpow]
      push_cast
      ring
    rw [hcast]
    ring
  · rw [if_neg (fun hc => hneg (by rw [← hbyte]; exact hc.2)), if_neg hneg]
    have hmtop : be_nat ((data.drop offset).take w) < 2 ^ 63 := by
      by_cases hw : w = 8
      · rcases hb : (data.drop offset).take w with _ | ⟨b, rest⟩
        · rw [hb] at hlen; simp at hlen; omega
        · have hrlen : rest.length = 7 := by
            rw [hb] at hlen; simp at hlen; omega
          have hltb : u8 b < 128 := by
            have hx : ((data.drop offset).take w).getD 0 0 = b := by rw [hb]; rfl
            rw [← hbyte, hx] at hneg
            omega
          rw [be_nat_cons]
          calc List.foldl (fun acc c => acc * 256 + u8 c) (u8 b) rest
              < (u8 b + 1) * 256 ^ rest.length := be_nat_foldl_lt rest (u8 b)
            _ ≤ 128 * 256 ^ 7 := by
                rw [hrlen]
                exact Nat.mul_le_mul_right _ (by omega)
            _ = 2 ^ 63 := by norm_num
      · have h8 : 8 * w ≤ 56 := by omega
        have h56 : (2 : Nat) ^ (8 * w) ≤ 2 ^ 56 := Nat.pow_le_pow_right (by norm_num) h8
        have : (2 : Nat) ^ 56 < 2 ^ 63 := by norm_num
        omega
    rw [i64_of_u64_low _ hmtop]
    norm_num


/-- Claim C2: `RecordValue::from_type_and_data` decodes per the serial-type
table: 0 is `Null` (0 bytes); 1..4 and 5, 6 are signed big-endian
two\x27s-complement integers of width 1/2/3/4/6/8 bytes (the decoded value is
the unsigned big-endian value minus `2^(8w)` when the first byte has its
high bit set — sign extension to 64 bits); 7 is an 8-byte big-endian float;
8 and 9 are literal 0 and 1 (0 bytes); 10 and 11 are accepted as `Reserved`;
even codes from 12 are blobs of `(t-12)/2` bytes and odd codes from 13 are
text of `(t-13)/2` bytes; each width-consuming class fails when fewer bytes
remain. -/
theorem C2_serial_types (data : List Nat) (offset : Nat) :
    RecordValue.from_type_and_data 0 data offset = .ok (.null, 0)
    ∧ (∀ t w, (t = 1 ∧ w = 1) ∨ (t = 2 ∧ w = 2) ∨ (t = 3 ∧ w = 3) ∨ (t = 4 ∧ w = 4)
        ∨ (t = 5 ∧ w = 6) ∨ (t = 6 ∧ w = 8) →
        (offset + w ≤ data.length →
          RecordValue.from_type_and_data t data offset =
            .ok (.int ((be_nat ((data.drop offset).take w) : Int) -
              (if 128 ≤ byteAt data offset then (2 : Int) ^ (8 * w) else 0)), w))
        ∧ (data.length < offset + w →
            RecordValue.from_type_and_data t data offset = .error .failure))
    ∧ ((offset + 8 ≤ data.length →
          RecordValue.from_type_and_data 7 data offset =
            .ok (.float (be_nat ((data.drop offset).take 8)), 8))
        ∧ (data.length < offset + 8 →
            RecordValue.from_type_and_data 7 data offset = .error .failure))
    ∧ RecordValue.from_type_and_data 8 data offset = .ok (.zero, 0)
    ∧ RecordValue.from_type_and_data 9 data offset = .ok (.one, 0)
    ∧ RecordValue.from_type_and_data 10 data offset = .ok (.reserved 10, 0)
    ∧ RecordValue.from_type_and_data 11 data offset = .ok (.reserved 11, 0)
    ∧ (∀ t, 12 ≤ t → t % 2 = 0 →
        (offset + (t - 12) / 2 ≤ data.length →
          RecordValue.from_type_and_data t data offset =
            .ok (.blob ((data.drop offset).take ((t - 12) / 2)), (t - 12) / 2))
        ∧ (data.length < offset + (t - 12) / 2 →
            RecordValue.from_type_and_data t data offset = .error .failure))
    ∧ (∀ t, 13 ≤ t → t % 2 = 1 →
        (offset + (t - 13) / 2 ≤ data.length →
          RecordValue.from_type_and_data t data offset =
            .ok (.text ((data.drop offset).take ((t - 13) / 2)), (t - 13) / 2))
        ∧ (data.length < offset + (t - 13) / 2 →
            RecordValue.from_type_and_data t data offset = .error .failure)) := by
  refine ⟨rfl, ?_, ?_, rfl, rfl, rfl, rfl, ?_, ?_⟩
  · rintro t w (⟨rfl, rfl⟩ | ⟨rfl, rfl⟩ | ⟨rfl, rfl⟩ | ⟨rfl, rfl⟩ | ⟨rfl, rfl⟩ | ⟨rfl, rfl⟩) <;>
      refine ⟨fun h => read_int_eq data offset _ (by norm_num) (by norm_num) h,
        fun h => ?_⟩ <;>
      · show RecordValue.read_int data offset _ = _
        unfold RecordValue.read_int
        rw [if_pos (by omega)]
  · constructor
    · intro h
      show (if offset + 8 > data.length then (.error .failure : RsResult (RecordValue × Nat))
        else .ok (.float (be_nat ((data.drop offset).take 8)), 8)) = _
      rw [if_neg (by omega)]
    · intro h
      show (if offset + 8 > data.length then (.error .failure : RsResult (RecordValue × Nat))
        else .ok (.float (be_nat ((data.drop offset).take 8)), 8)) = _
      rw [if_pos (by omega)]
  · intro t h12 heven
    have hne : ∀ k : Nat, k < 12 → ¬ (t = k) := fun k hk ht => by omega
    have hor : ¬ (t = 10 ∨ t = 11) := by rintro (h | h) <;> omega
    unfold RecordValue.from_type_and_data
    rw [if_neg (hne 0 (by omega)), if_neg (hne 1 (by omega)), if_neg (hne 2 (by omega)),
      if_neg (hne 3 (by omega)), if_neg (hne 4 (by omega)), if_neg (hne 5 (by omega)),
      if_neg (hne 6 (by omega)), if_neg (hne 7 (by omega)), if_neg (hne 8 (by omega)),
      if_neg (hne 9 (by omega)), if_neg hor,
      if_pos (⟨h12, heven⟩ : 12 ≤ t ∧ t % 2 = 0)]
    constructor
    · intro h; rw [if_neg (by omega)]
    · intro h; rw [if_pos (by omega)]
  · intro t h13 hodd
    have hne : ∀ k : Nat, k < 12 → ¬ (t = k) := fun k hk ht => by omega
    have hor : ¬ (t = 10 ∨ t = 11) := by rintro (h | h) <;> omega
    have hev : ¬ (12 ≤ t ∧ t % 2 = 0) := fun h => by omega
    unfold RecordValue.from_type_and_data
    rw [if_neg (hne 0 (by omega)), if_neg (hne 1 (by omega)), if_neg (hne 2 (by omega)),
      if_neg (hne 3 (by omega)), if_neg (hne 4 (by omega)), if_neg (hne 5 (by omega)),
      if_neg (hne 6 (by omega)), if_neg (hne 7 (by omega)), if_neg (hne 8 (by omega)),
      if_neg (hne 9 (by omega)), if_neg hor, if_neg hev,
      if_pos (⟨h13, hodd⟩ : 13 ≤ t ∧ t % 2 = 1)]
    constructor
    · intro h; rw [if_neg (by omega)]
    · intro h; rw [if_pos (by omega)]

/-- Witness for `C2_serial_types` on concrete bytes: serial type 2 decodes
`[200, 1]` to the negative integer -14335, serial type 6 fails on a 2-byte
slice, and serial type 17 yields the 2-byte text. -/
theorem C2_witness :
    RecordValue.from_type_and_data 2 [200, 1] 0 = .ok (.int (-14335), 2)
    ∧ RecordValue.from_type_and_data 6 [200, 1] 0 = .error .failure
    ∧ RecordValue.from_type_and_data 17 [200, 1] 0 = .ok (.text [200, 1], 2) := by
  refine ⟨?_, ?_, ?_⟩
  · have h := ((C2_serial_types [200, 1] 0).2.1 2 2 (by norm_num)).1 (by norm_num)
    rw [h]; decide
  · exact ((C2_serial_types [200, 1] 0).2.1 6 8 (by norm_num)).2 (by norm_num)
  · have h := ((C2_serial_types [200, 1] 0).2.2.2.2.2.2.2.2 17 (by norm_num) (by norm_num)).1
      (by norm_num)
    rw [h]; decide


/-! ## Claim C3 -/

/-- Accumulator semantics of the first eight varint bytes: shift by 7, add
the low 7 bits. -/
def varint7 (acc : Nat) : List Nat → Nat
  | [] => acc
  | b :: bs => varint7 (acc * 128 + u8 b % 128) bs

theorem drop_eq_getD_cons {l : List Nat} {k : Nat} (h : k < l.length) :
    l.drop k = l.getD k 0 :: l.drop (k + 1) := by
  rw [List.drop_eq_getElem_cons h]
  congr 1
  rw [List.getD_eq_getElem?_getD, List.getElem?_eq_getElem h]
  rfl

theorem read_varint_aux_ok (data : List Nat) (offset : Nat) :
    ∀ rem acc br v n, rem + br = 9 →
    read_varint_aux data offset rem acc br = .ok (v, n) →
    br + 1 ≤ n ∧ n ≤ 9 ∧ offset + n ≤ data.length
    ∧ (∀ i, br ≤ i → i + 1 < n → 128 ≤ byteAt data (offset + i))
    ∧ (n ≤ 8 → byteAt data (offset + (n - 1)) < 128)
    ∧ v = (if n = 9
        then varint7 acc ((data.drop (offset + br)).take (8 - br)) * 256 + byteAt data (offset + 8)
        else varint7 acc ((data.drop (offset + br)).take (n - br))) := by
  intro rem
  induction rem with
  | zero =>
    intro acc br v n h9 hok
    exact absurd hok (by simp [read_varint_aux])
  | succ r ih =>
    intro acc br v n h9 hok
    rw [read_varint_aux] at hok
    by_cases hend : offset + br ≥ data.length
    · rw [if_pos hend] at hok; cases hok
    · rw [if_neg hend] at hok
      simp only at hok
      by_cases hr0 : r = 0
      · subst hr0
        rw [if_pos rfl] at hok
        have hbr : br = 8 := by omega
        subst hbr
        cases hok
        refine ⟨by omega, by omega, by omega, ?_, ?_, ?_⟩
        · intro i h1 h2; omega
        · intro h; omega
        · rw [if_pos rfl]
          simp [varint7]
      · rw [if_neg hr0] at hok
        by_cases hlow : byteAt data (offset + br) < 128
        · rw [if_pos hlow] at hok
          cases hok
          refine ⟨by omega, by omega, by omega, ?_, ?_, ?_⟩
          · intro i h1 h2; omega
          · intro _
            simpa using hlow
          · rw [if_neg (by omega)]
            rw [drop_eq_getD_cons (by omega)]
            rw [show br + 1 - br = 1 from by omega]
            simp [varint7, byteAt, u8]
        · rw [if_neg hlow] at hok
          have ih' := ih (acc * 128 + byteAt data (offset + br) % 128) (br + 1) v n
            (by omega) hok
          obtain ⟨ha, hb, hc, hd, he, hf⟩ := ih'
          refine ⟨by omega, hb, hc, ?_, he, ?_⟩
          · intro i h1 h2
            rcases Nat.eq_or_lt_of_le h1 with heq | hlt
            · rw [← heq]; omega
            · exact hd i (by omega) h2
          · have hdrop : data.drop (offset + br)
                = data.getD (offset + br) 0 :: data.drop (offset + br + 1) :=
              drop_eq_getD_cons (by omega)
            by_cases h9c : n = 9
            · rw [if_pos h9c] at hf ⊢
              rw [hdrop, show (8 - br) = (8 - (br + 1)) + 1 from by omega,
                List.take_succ_cons, varint7]
              rw [show offset + br + 1 = offset + (br + 1) from by omega]
              exact hf
            · rw [if_neg h9c] at hf ⊢
              rw [hdrop, show (n - br) = (n - (br + 1)) + 1 from by omega,
                List.take_succ_cons, varint7]
              rw [show offset + br + 1 = offset + (br + 1) from by omega]
              exact hf


theorem read_varint_aux_err (data : List Nat) (offset : Nat) :
    ∀ rem acc br, rem + br = 9 → br ≤ 8 →
    (read_varint_aux data offset rem acc br = .error .failure ↔
      data.length < offset + 9
      ∧ ∀ i, br ≤ i → offset + i < data.length → 128 ≤ byteAt data (offset + i)) := by
  intro rem
  induction rem with
  | zero => intro acc br h9 hbr; omega
  | succ r ih =>
    intro acc br h9 hbr
    rw [read_varint_aux]
    by_cases hend : offset + br ≥ data.length
    · rw [if_pos hend]
      simp only [true_iff]
      refine ⟨by omega, ?_⟩
      intro i h1 h2
      omega
    · rw [if_neg hend]
      simp only
      by_cases hr0 : r = 0
      · subst hr0
        rw [if_pos rfl]
        have hbr8 : br = 8 := by omega
        subst hbr8
        constructor
        · intro h; cases h
        · rintro ⟨h1, _⟩; omega
      · rw [if_neg hr0]
        by_cases hlow : byteAt data (offset + br) < 128
        · rw [if_pos hlow]
          constructor
          · intro h; cases h
          · rintro ⟨h1, h2⟩
            have := h2 br (le_refl br) (by omega)
            omega
        · rw [if_neg hlow]
          rw [ih (acc * 128 + byteAt data (offset + br) % 128) (br + 1) (by omega) (by omega)]
          constructor
          · rintro ⟨h1, h2⟩
            refine ⟨h1, ?_⟩
            intro i hi hlen
            rcases Nat.eq_or_lt_of_le hi with heq | hlt
            · rw [← heq]; omega
            · exact h2 i (by omega) hlen
          · rintro ⟨h1, h2⟩
            exact ⟨h1, fun i hi hlen => h2 i (by omega) hlen⟩

theorem read_varint_aux_no_panic (data : List Nat) (offset : Nat) :
    ∀ rem acc br, read_varint_aux data offset rem acc br ≠ .error .panicked := by
  intro rem
  induction rem with
  | zero => intro acc br h; simp [read_varint_aux] at h
  | succ r ih =>
    intro acc br h
    rw [read_varint_aux] at h
    by_cases hend : offset + br ≥ data.length
    · rw [if_pos hend] at h; cases h
    · rw [if_neg hend] at h
      simp only at h
      by_cases hr0 : r = 0
      · rw [if_pos hr0] at h; cases h
      · rw [if_neg hr0] at h
        by_cases hlow : byteAt data (offset + br) < 128
        · rw [if_pos hlow] at h; cases h
        · rw [if_neg hlow] at h
          exact ih _ _ h


/-- Claim C3: on success `read_varint` consumed between 1 and 9 bytes that
all lie inside the buffer; every byte before the last has its high bit set,
a last byte among the first eight has it clear, and the value is the 7-bits
per-byte big-endian accumulator, with a ninth byte contributing all 8 bits;
it returns an error (never a panic) exactly when the buffer ends before a
terminating byte, i.e. fewer than 9 bytes remain and all of them have the
high bit set. -/
theorem C3_read_varint (data : List Nat) (offset : Nat) :
    (∀ v n, read_varint data offset = .ok (v, n) →
      1 ≤ n ∧ n ≤ 9 ∧ offset + n ≤ data.length
      ∧ (∀ i, i + 1 < n → 128 ≤ byteAt data (offset + i))
      ∧ (n ≤ 8 → byteAt data (offset + (n - 1)) < 128)
      ∧ v = (if n = 9
          then varint7 0 ((data.drop offset).take 8) * 256 + byteAt data (offset + 8)
          else varint7 0 ((data.drop offset).take n)))
    ∧ (read_varint data offset = .error .failure ↔
        data.length < offset + 9
        ∧ ∀ i, offset + i < data.length → 128 ≤ byteAt data (offset + i))
    ∧ read_varint data offset ≠ .error .panicked := by
  refine ⟨?_, ?_, ?_⟩
  · intro v n hok
    have h := read_varint_aux_ok data offset 9 0 0 v n (by omega) hok
    obtain ⟨h1, h2, h3, h4, h5, h6⟩ := h
    refine ⟨by omega, h2, h3, fun i hi => h4 i (by omega) hi, h5, ?_⟩
    simpa using h6
  · have h := read_varint_aux_err data offset 9 0 0 (by omega) (by omega)
    rw [read_varint, h]
    constructor
    · rintro ⟨a, b⟩; exact ⟨a, fun i hi => b i (by omega) hi⟩
    · rintro ⟨a, b⟩; exact ⟨a, fun i _ hi => b i hi⟩
  · exact read_varint_aux_no_panic data offset 9 0 0

/-- Witness for `C3_read_varint`: `[133, 34]` decodes to `674 = 5 * 128 + 34`
in two bytes, and the lone continuation byte `[133]` is a corrupt varint. -/
theorem C3_witness :
    read_varint [133, 34] 0 = .ok (674, 2)
    ∧ 674 = (if 2 = 9
        then varint7 0 ((([133, 34] : List Nat).drop 0).take 8) * 256 + byteAt [133, 34] (0 + 8)
        else varint7 0 ((([133, 34] : List Nat).drop 0).take 2))
    ∧ read_varint [133] 0 = .error .failure :=
  ⟨by decide,
   ((C3_read_varint [133, 34] 0).1 674 2 (by decide)).2.2.2.2.2,
   ((C3_read_varint [133] 0).2.1).mpr ⟨by decide, fun i hi => by
      have hl : i = 0 := by
        have : ([133] : List Nat).length = 1 := rfl
        omega
      subst hl
      decide⟩⟩


/-! ## Claim C8 -/

/-- Modelled from the spec: the repository has no varint encoder (only
`read_varint`); the spec describes the canonical encoding as the big-endian
base-128 digits of the value, high bit set on every byte but the last, with
a 9-byte form whose final byte carries the low 8 bits when the value does
not fit 8 groups of 7 bits (`2^56`).  `varint_digits` is the digit list
(empty for 0), `mark_cont` sets the continuation bits. -/
def varint_digits : Nat → List Nat
  | 0 => []
  | n + 1 => varint_digits ((n + 1) / 128) ++ [(n + 1) % 128]
decreasing_by exact Nat.div_lt_self (Nat.succ_pos _) (by omega)

/-- Set the high (continuation) bit on every byte but the last. -/
def mark_cont : List Nat → List Nat
  | [] => []
  | [d] => [d]
  | d :: e :: ds => (d + 128) :: mark_cont (e :: ds)

/-- Modelled from the spec: the canonical varint encoding of a `u64`. -/
def encode_varint (v : Nat) : List Nat :=
  if v < 2 ^ 56 then
    mark_cont (if v = 0 then [0] else varint_digits v)
  else
    (List.replicate (8 - (varint_digits (v / 256)).length) 0
      ++ varint_digits (v / 256)).map (· + 128) ++ [v % 256]

theorem varint_digits_lt (v : Nat) : ∀ d ∈ varint_digits v, d < 128 := by
  induction v using Nat.strong_induction_on with
  | _ v ih =>
    match v with
    | 0 => intro d hd; simp [varint_digits] at hd
    | n + 1 =>
      intro d hd
      rw [varint_digits] at hd
      rcases List.mem_append.1 hd with h | h
      · exact ih ((n + 1) / 128) (Nat.div_lt_self (Nat.succ_pos _) (by omega)) d h
      · simp at h
        subst h
        exact Nat.mod_lt _ (by omega)

theorem varint_digits_fold (v : Nat) :
    List.foldl (fun a d => a * 128 + d) 0 (varint_digits v) = v := by
  induction v using Nat.strong_induction_on with
  | _ v ih =>
    match v with
    | 0 => rw [varint_digits]; rfl
    | n + 1 =>
      rw [varint_digits, List.foldl_append]
      rw [ih ((n + 1) / 128) (Nat.div_lt_self (Nat.succ_pos _) (by omega))]
      simp
      omega

theorem varint_digits_length_le (v k : Nat) (h : v < 128 ^ k) :
    (varint_digits v).length ≤ k := by
  induction v using Nat.strong_induction_on generalizing k with
  | _ v ih =>
    match v with
    | 0 => simp [varint_digits]
    | n + 1 =>
      rw [varint_digits]
      have hk : 1 ≤ k := by
        by_contra hc
        have hzero : k = 0 := by omega
        rw [hzero, pow_zero] at h
        omega
      have hdiv : (n + 1) / 128 < 128 ^ (k - 1) := by
        have h128 : (128 : Nat) ^ k = 128 ^ (k - 1) * 128 := by
          conv in 128 ^ k => rw [show k = (k - 1) + 1 from by omega]
          ring
        rw [h128] at h
        exact Nat.div_lt_of_lt_mul (by omega)
      have := ih ((n + 1) / 128) (Nat.div_lt_self (Nat.succ_pos _) (by omega)) (k - 1) hdiv
      simp only [List.length_append, List.length_singleton]
      omega

theorem mark_cont_length (ds : List Nat) : (mark_cont ds).length = ds.length := by
  induction ds with
  | nil => rfl
  | cons d ds ih =>
    rcases ds with _ | ⟨e, ds'⟩
    · rfl
    · rw [mark_cont, List.length_cons, ih]; simp

theorem fold_replicate_zero (k : Nat) (ds : List Nat) :
    List.foldl (fun a d => a * 128 + d) 0 (List.replicate k 0 ++ ds)
      = List.foldl (fun a d => a * 128 + d) 0 ds := by
  induction k with
  | zero => rfl
  | succ m ih => simpa [List.replicate_succ] using ih


theorem varint7_lt (bs : List Nat) : ∀ acc,
    varint7 acc bs < (acc + 1) * 128 ^ bs.length := by
  induction bs with
  | nil => intro acc; simp [varint7]
  | cons b rest ih =>
    intro acc
    have h := ih (acc * 128 + u8 b % 128)
    have hb : u8 b % 128 < 128 := Nat.mod_lt _ (by norm_num)
    rw [varint7]
    calc varint7 (acc * 128 + u8 b % 128) rest
        < (acc * 128 + u8 b % 128 + 1) * 128 ^ rest.length := h
      _ ≤ ((acc + 1) * 128) * 128 ^ rest.length := by
          have : acc * 128 + u8 b % 128 + 1 ≤ (acc + 1) * 128 := by nlinarith
          exact Nat.mul_le_mul_right _ this
      _ = (acc + 1) * 128 ^ (b :: rest).length := by
          rw [List.length_cons]; ring

theorem read_varint_aux_marked (data : List Nat) :
    ∀ ds br rem acc, rem + br = 9 → 1 ≤ ds.length → br + ds.length ≤ 8 →
    (∀ d ∈ ds, d < 128) →
    (∀ i, i < ds.length → data.getD (br + i) 0 = (mark_cont ds).getD i 0) →
    br + ds.length ≤ data.length →
    read_varint_aux data 0 rem acc br
      = .ok (List.foldl (fun a d => a * 128 + d) acc ds, br + ds.length) := by
  intro ds
  induction ds with
  | nil => intro br rem acc _ h1; simp at h1
  | cons d ds ih =>
    intro br rem acc h9 h1 h8 hlt hbytes hdlen
    obtain ⟨r, hr⟩ : ∃ r, rem = r + 1 := ⟨rem - 1, by omega⟩
    subst hr
    rw [read_varint_aux]
    rw [if_neg (by simp; omega)]
    simp only
    have hd0 : data.getD (br + 0) 0 = (mark_cont (d :: ds)).getD 0 0 := hbytes 0 (by simp)
    rcases ds with _ | ⟨e, ds'⟩
    · -- single final digit: clear high bit, loop stops
      have hdd : (mark_cont [d]).getD 0 0 = d := rfl
      have hbyte : byteAt data (0 + br) = d := by
        simp only [byteAt, Nat.zero_add]
        rw [show br = br + 0 from by omega, hd0, hdd]
        exact Nat.mod_eq_of_lt (by have := hlt d (by simp); omega)
      rw [if_neg (by omega), hbyte, if_pos (by have := hlt d (by simp); omega)]
      have : d % 128 = d := Nat.mod_eq_of_lt (by have := hlt d (by simp); omega)
      rw [this]
      rfl
    · -- continuation byte: high bit set, recurse
      have hdd : (mark_cont (d :: e :: ds')).getD 0 0 = d + 128 := rfl
      have hbyte : byteAt data (0 + br) = d + 128 := by
        simp only [byteAt, Nat.zero_add]
        rw [show br = br + 0 from by omega, hd0, hdd]
        exact Nat.mod_eq_of_lt (by have := hlt d (by simp); omega)
      rw [if_neg (by omega), hbyte, if_neg (by omega)]
      have hmod : (d + 128) % 128 = d := by
        rw [Nat.add_mod_right]
        exact Nat.mod_eq_of_lt (by have := hlt d (by simp); omega)
      rw [hmod]
      have hrec := ih (br + 1) r (acc * 128 + d) (by omega) (by simp) (by simp at h8 ⊢; omega)
        (fun x hx => hlt x (by simp at hx ⊢; tauto))
        (fun i hi => by
          have := hbytes (i + 1) (by simp at hi ⊢; omega)
          rw [show br + (i + 1) = br + 1 + i from by omega] at this
          rw [this]
          rfl)
        (by simp at hdlen ⊢; omega)
      rw [hrec]
      congr 2
      simp
      omega

theorem read_varint_aux_marked9 (data : List Nat) :
    ∀ ds br rem acc, rem + br = 9 → br + ds.length = 8 →
    (∀ d ∈ ds, d < 128) →
    (∀ i, i < ds.length → data.getD (br + i) 0 = (ds.map (· + 128)).getD i 0) →
    9 ≤ data.length →
    read_varint_aux data 0 rem acc br
      = .ok ((List.foldl (fun a d => a * 128 + d) acc ds) * 256 + byteAt data 8, 9) := by
  intro ds
  induction ds with
  | nil =>
    intro br rem acc h9 h8 _ _ hdlen
    have hbr : br = 8 := by simpa using h8
    subst hbr
    obtain ⟨r, hr⟩ : ∃ r, rem = r + 1 := ⟨rem - 1, by omega⟩
    subst hr
    have hr0 : r = 0 := by omega
    subst hr0
    rw [read_varint_aux]
    rw [if_neg (by simp; omega), if_pos rfl]
    rfl
  | cons d ds ih =>
    intro br rem acc h9 h8 hlt hbytes hdlen
    obtain ⟨r, hr⟩ : ∃ r, rem = r + 1 := ⟨rem - 1, by omega⟩
    subst hr
    rw [read_varint_aux]
    rw [if_neg (by simp at h8 ⊢; omega)]
    simp only
    have hd0 : data.getD (br + 0) 0 = ((d :: ds).map (· + 128)).getD 0 0 := hbytes 0 (by simp)
    have hmap0 : ((d :: ds).map (· + 128)).getD 0 0 = d + 128 := rfl
    have hbyte : byteAt data (0 + br) = d + 128 := by
      simp only [byteAt, Nat.zero_add]
      rw [show br = br + 0 from by omega, hd0, hmap0]
      exact Nat.mod_eq_of_lt (by have := hlt d (by simp); omega)
    have hrne : r ≠ 0 := by simp at h8; omega
    rw [if_neg hrne, hbyte, if_neg (by omega)]
    have hmod : (d + 128) % 128 = d := by
      rw [Nat.add_mod_right]
      exact Nat.mod_eq_of_lt (by have := hlt d (by simp); omega)
    rw [hmod]
    have hrec := ih (br + 1) r (acc * 128 + d) (by omega) (by simp at h8 ⊢; omega)
      (fun x hx => hlt x (by simp at hx ⊢; tauto))
      (fun i hi => by
        have := hbytes (i + 1) (by simp at hi ⊢; omega)
        rw [show br + (i + 1) = br + 1 + i from by omega] at this
        rw [this]
        rfl)
      hdlen
    rw [hrec]
    simp [List.foldl_cons]

theorem varint_digits_len_pos (n : Nat) : 1 ≤ (varint_digits (n + 1)).length := by
  rw [varint_digits]
  simp

theorem pow128_eq (k : Nat) : (128 : Nat) ^ k = 2 ^ (7 * k) := by
  rw [show (128 : Nat) = 2 ^ 7 from by norm_num, ← Nat.pow_mul]

theorem encode_varint_decode (v : Nat) (hv : v < 2 ^ 64) :
    read_varint (encode_varint v) 0 = .ok (v, (encode_varint v).length) := by
  by_cases hs : v < 2 ^ 56
  · rw [encode_varint, if_pos hs]
    have hne : 1 ≤ (if v = 0 then [0] else varint_digits v).length := by
      split
      · simp
      · rename_i hv0
        match v, hv0 with
        | n + 1, _ => exact varint_digits_len_pos n
    have hlt : ∀ d ∈ (if v = 0 then [0] else varint_digits v), d < 128 := by
      split
      · simp
      · exact varint_digits_lt v
    have hlen8 : (if v = 0 then [0] else varint_digits v).length ≤ 8 := by
      split
      · simp
      · exact varint_digits_length_le v 8 (by rw [pow128_eq]; norm_num; exact hs)
    have hfold : List.foldl (fun a d => a * 128 + d) 0 (if v = 0 then [0] else varint_digits v)
        = v := by
      split
      · rename_i h0; subst h0; rfl
      · exact varint_digits_fold v
    have hrun := read_varint_aux_marked (mark_cont (if v = 0 then [0] else varint_digits v))
      (if v = 0 then [0] else varint_digits v) 0 9 0 (by omega) hne (by omega) hlt
      (fun i _ => by rw [Nat.zero_add]) (by rw [mark_cont_length]; omega)
    rw [read_varint, hrun, hfold, mark_cont_length]
    rw [Nat.zero_add]
  · rw [encode_varint, if_neg hs]
    have hdig8 : (varint_digits (v / 256)).length ≤ 8 := by
      apply varint_digits_length_le
      rw [pow128_eq]
      norm_num
      exact Nat.div_lt_of_lt_mul (by norm_num at hv ⊢; omega)
    have hlen : (List.replicate (8 - (varint_digits (v / 256)).length) 0
        ++ varint_digits (v / 256)).length = 8 := by
      simp [List.length_replicate]
      omega
    have hlt : ∀ d ∈ (List.replicate (8 - (varint_digits (v / 256)).length) 0
        ++ varint_digits (v / 256)), d < 128 := by
      intro d hd
      rcases List.mem_append.1 hd with h | h
      · have := List.eq_of_mem_replicate h
        omega
      · exact varint_digits_lt _ d h
    have hfold : List.foldl (fun a d => a * 128 + d) 0
        (List.replicate (8 - (varint_digits (v / 256)).length) 0 ++ varint_digits (v / 256))
        = v / 256 := by
      rw [fold_replicate_zero, varint_digits_fold]
    have hbytes : ∀ i, i < (List.replicate (8 - (varint_digits (v / 256)).length) 0
        ++ varint_digits (v / 256)).length →
        ((List.replicate (8 - (varint_digits (v / 256)).length) 0
          ++ varint_digits (v / 256)).map (· + 128) ++ [v % 256]).getD (0 + i) 0
        = ((List.replicate (8 - (varint_digits (v / 256)).length) 0
          ++ varint_digits (v / 256)).map (· + 128)).getD i 0 := by
      intro i hi
      simp only [Nat.zero_add, List.getD_eq_getElem?_getD]
      rw [List.getElem?_append_left (by simp; omega)]
    have h8 : byteAt ((List.replicate (8 - (varint_digits (v / 256)).length) 0
        ++ varint_digits (v / 256)).map (· + 128) ++ [v % 256]) 8 = v % 256 := by
      rw [byteAt, List.getD_eq_getElem?_getD, List.getElem?_append_right (by simp; omega)]
      simp only [List.length_map, hlen]
      simp [u8, Nat.mod_mod_of_dvd]
    have hrun := read_varint_aux_marked9
      ((List.replicate (8 - (varint_digits (v / 256)).length) 0
        ++ varint_digits (v / 256)).map (· + 128) ++ [v % 256])
      (List.replicate (8 - (varint_digits (v / 256)).length) 0 ++ varint_digits (v / 256))
      0 9 0 (by omega) (by rw [Nat.zero_add, hlen]) hlt hbytes (by simp; omega)
    rw [read_varint, hrun, hfold, h8]
    have hvfin : v / 256 * 256 + v % 256 = v := by
      have := Nat.div_add_mod v 256
      omega
    rw [hvfin]
    congr 1
    simp only [List.length_append, List.length_map, List.length_singleton, hlen]

/-- Claim C8: whenever `read_varint` decodes a value at some buffer
position, the canonical re-encoding of that value is no longer than the
bytes consumed, and decoding the re-encoding yields the same value. -/
theorem C8_varint_roundtrip (data : List Nat) (offset v n : Nat)
    (h : read_varint data offset = .ok (v, n)) :
    (encode_varint v).length ≤ n
    ∧ read_varint (encode_varint v) 0 = .ok (v, (encode_varint v).length) := by
  obtain ⟨h1, h2, h3, h4, h5, h6⟩ := read_varint_aux_ok data offset 9 0 0 v n (by omega) h
  have hshort : n ≤ 8 → v < 128 ^ n := by
    intro hn8
    rw [if_neg (by omega)] at h6
    have hw := varint7_lt ((data.drop (offset + 0)).take (n - 0)) 0
    have hwlen : ((data.drop (offset + 0)).take (n - 0)).length ≤ n := by
      simp [List.length_take]
    rw [h6]
    calc varint7 0 ((data.drop (offset + 0)).take (n - 0))
        < (0 + 1) * 128 ^ ((data.drop (offset + 0)).take (n - 0)).length := hw
      _ ≤ 128 ^ n := by
          simp only [Nat.zero_add, one_mul]
          exact Nat.pow_le_pow_right (by norm_num) hwlen
  have hv64 : v < 2 ^ 64 := by
    by_cases h9 : n = 9
    · rw [if_pos h9] at h6
      have hw := varint7_lt ((data.drop (offset + 0)).take (8 - 0)) 0
      have hwlen : ((data.drop (offset + 0)).take (8 - 0)).length ≤ 8 := by
        simp [List.length_take]
      have hwv : varint7 0 ((data.drop (offset + 0)).take (8 - 0)) < 2 ^ 56 := by
        calc varint7 0 ((data.drop (offset + 0)).take (8 - 0))
            < (0 + 1) * 128 ^ ((data.drop (offset + 0)).take (8 - 0)).length := hw
          _ ≤ 128 ^ 8 := by
              simp only [Nat.zero_add, one_mul]
              exact Nat.pow_le_pow_right (by norm_num) hwlen
          _ = 2 ^ 56 := by norm_num
      have hbyte : byteAt data (offset + 8) < 256 := Nat.mod_lt _ (by norm_num)
      rw [h6]
      calc varint7 0 ((data.drop (offset + 0)).take (8 - 0)) * 256 + byteAt data (offset + 8)
          < (varint7 0 ((data.drop (offset + 0)).take (8 - 0)) + 1) * 256 := by omega
        _ ≤ 2 ^ 56 * 256 := Nat.mul_le_mul_right _ (by omega)
        _ = 2 ^ 64 := by norm_num
    · have hn8 : n ≤ 8 := by omega
      have := hshort hn8
      calc v < 128 ^ n := this
        _ ≤ 128 ^ 8 := Nat.pow_le_pow_right (by norm_num) hn8
        _ < 2 ^ 64 := by norm_num
  constructor
  · by_cases hn8 : n ≤ 8
    · have hv : v < 128 ^ n := hshort hn8
      have hv56 : v < 2 ^ 56 := by
        calc v < 128 ^ n := hv
          _ ≤ 128 ^ 8 := Nat.pow_le_pow_right (by norm_num) hn8
          _ = 2 ^ 56 := by norm_num
      rw [encode_varint, if_pos hv56, mark_cont_length]
      split
      · simp
        omega
      · exact varint_digits_length_le v n hv
    · have h9 : n = 9 := by omega
      rw [h9]
      by_cases hs : v < 2 ^ 56
      · rw [encode_varint, if_pos hs, mark_cont_length]
        split
        · simp
        · have := varint_digits_length_le v 8 (by rw [pow128_eq]; norm_num; exact hs)
          omega
      · rw [encode_varint, if_neg hs]
        have hdig8 : (varint_digits (v / 256)).length ≤ 8 := by
          apply varint_digits_length_le
          rw [pow128_eq]
          norm_num
          exact Nat.div_lt_of_lt_mul (by norm_num at hv64 ⊢; omega)
        simp only [List.length_append, List.length_map, List.length_replicate,
          List.length_singleton]
        omega
  · exact encode_varint_decode v hv64

/-- Witness for `C8_varint_roundtrip` at the two-byte varint `[133, 34]`. -/
theorem C8_witness :
    read_varint [133, 34] 0 = .ok (674, 2)
    ∧ (encode_varint 674).length ≤ 2
    ∧ read_varint (encode_varint 674) 0 = .ok (674, (encode_varint 674).length) := by
  refine ⟨by decide, ?_, ?_⟩
  · exact (C8_varint_roundtrip [133, 34] 0 674 2 (by decide)).1
  · exact (C8_varint_roundtrip [133, 34] 0 674 2 (by decide)).2

/-! ## Claim C10 -/

/-- `create_table_row` always produces one value per declared column. -/
theorem create_table_row_length (cell : Cell) (columns : List ColumnInfo) :
    (Database.create_table_row cell columns).values.length = columns.length := by
  simp [Database.create_table_row, List.enum_length]

/-- Claim C10: `create_table_row` is total — it never fails — and fills any
non-alias column position at or beyond the record body length with `Null`,
producing exactly one value per declared column; and `extract_columns`,
whenever the requested names resolve, succeeds and likewise substitutes
`Null` for any projected index beyond a row's value list, copying in-range
values unchanged. -/
theorem C10_short_records :
    (∀ cell columns, (Database.create_table_row cell columns).values.length = columns.length)
    ∧ (∀ cell columns i col, (columns : List ColumnInfo).get? i = some col →
        col.is_primary_key = false → cell.record.body.length ≤ i →
        (Database.create_table_row cell columns).values.get? i = some RecordValue.null)
    ∧ (∀ tableData columnNames idxs,
        resolve_column_indices tableData.columns columnNames = .ok idxs →
        ∃ res, extract_columns tableData columnNames = .ok res
          ∧ res.length = tableData.rows.length
          ∧ (∀ k row, tableData.rows.get? k = some row →
              ∃ resrow, res.get? k = some resrow
                ∧ resrow.length = idxs.length
                ∧ (∀ j i, idxs.get? j = some i → row.values.length ≤ i →
                    resrow.get? j = some RecordValue.null)
                ∧ (∀ j i v, idxs.get? j = some i → row.values.get? i = some v →
                    resrow.get? j = some v))) := by
  refine ⟨create_table_row_length, ?_, ?_⟩
  · intro cell columns i col hcol hpk hshort
    simp only [Database.create_table_row, List.get?_eq_getElem?, List.getElem?_map]
    have henum : columns.enum[i]? = some (i, col) := by
      rw [List.getElem?_enum]
      rw [List.get?_eq_getElem?] at hcol
      rw [hcol]
      rfl
    rw [henum]
    simp only [Option.map_some']
    rw [if_neg (by rw [hpk]; exact Bool.false_ne_true)]
    have hnone : cell.record.body[i]? = none := List.getElem?_eq_none hshort
    rw [hnone]
  · intro tableData columnNames idxs hres
    refine ⟨_, by rw [extract_columns, hres], by simp, ?_⟩
    intro k row hrow
    rw [List.get?_eq_getElem?] at hrow
    refine ⟨_, by simp only [List.get?_eq_getElem?, List.getElem?_map, hrow]; rfl, by simp, ?_, ?_⟩
    · intro j i hij hlen
      simp only [List.get?_eq_getElem?, List.getElem?_map]
      rw [List.get?_eq_getElem?] at hij
      rw [hij]
      simp only [Option.map_some']
      have hnone : row.values[i]? = none := List.getElem?_eq_none hlen
      rw [hnone]
    · intro j i v hij hv
      simp only [List.get?_eq_getElem?, List.getElem?_map]
      rw [List.get?_eq_getElem?] at hij
      rw [hij]
      simp only [Option.map_some']
      rw [List.get?_eq_getElem?] at hv
      rw [hv]

/-- Witness for `C10_short_records`: a one-value record body under a
two-column schema yields a two-value row whose second value is `Null`. -/
theorem C10_witness :
    (Database.create_table_row ⟨3, 7, ⟨⟨2, [15]⟩, [RecordValue.text [97]]⟩⟩
        [⟨[99], 0, false⟩, ⟨[100], 1, false⟩]).values.length = 2
    ∧ (Database.create_table_row ⟨3, 7, ⟨⟨2, [15]⟩, [RecordValue.text [97]]⟩⟩
        [⟨[99], 0, false⟩, ⟨[100], 1, false⟩]).values.get? 1 = some RecordValue.null := by
  constructor
  · exact C10_short_records.1 _ _
  · exact C10_short_records.2.1 ⟨3, 7, ⟨⟨2, [15]⟩, [RecordValue.text [97]]⟩⟩
      [⟨[99], 0, false⟩, ⟨[100], 1, false⟩] 1 ⟨[100], 1, false⟩ (by decide) rfl (by decide)

/-! ## Claim C9 -/

theorem search_leaf_cells_eq (pageData : List Nat) (rid : Nat) :
    ∀ offs cells, cells_from_offsets pageData offs = .ok cells →
    search_leaf_cells pageData rid offs = .ok (cells.find? (fun c => c.row_id == rid)) := by
  intro offs
  induction offs with
  | nil =>
    intro cells h
    cases h
    rfl
  | cons o os ih =>
    intro cells h
    rw [cells_from_offsets] at h
    cases hcell : Cell.from_bytes pageData o with
    | error e => rw [hcell] at h; cases h
    | ok c =>
      rw [hcell] at h
      cases hrest : cells_from_offsets pageData os with
      | error e => rw [hrest] at h; cases h
      | ok cs =>
        rw [hrest] at h
        cases h
        rw [search_leaf_cells, hcell, List.find?_cons]
        by_cases heq : c.row_id = rid
        · simp [heq]
        · have hb : (c.row_id == rid) = false := by simp [heq]
          simp [hb, heq, ih cs hrest]

theorem except_first_some_eq {α β : Type} (f : α → RsResult (List β)) (g : α → RsResult (Option β))
    (p : β → Bool)
    (hrel : ∀ x ys, f x = .ok ys → g x = .ok (ys.find? p)) :
    ∀ xs cells, except_map_list f xs = .ok cells →
    except_first_some g xs = .ok (cells.find? p) := by
  intro xs
  induction xs with
  | nil => intro cells h; cases h; rfl
  | cons x xs ih =>
    intro cells h
    rw [except_map_list] at h
    cases hx : f x with
    | error e => rw [hx] at h; cases h
    | ok ys =>
      rw [hx] at h
      cases hrest : except_map_list f xs with
      | error e => rw [hrest] at h; cases h
      | ok zs =>
        rw [hrest] at h
        cases h
        rw [except_first_some, hrel x ys hx, List.find?_append]
        cases hfind : ys.find? p with
        | some b => rfl
        | none => simpa using ih zs hrest

/-- `search_table_for_row_id` returns exactly the first cell of the in-order
traversal with the requested row id, whenever the traversal succeeds. -/
theorem search_eq_find (db : Database) (rid : Nat) :
    ∀ fuel pageNum cells, db.collect_all_table_cells fuel pageNum = .ok cells →
    db.search_table_for_row_id fuel pageNum rid
      = .ok (cells.find? (fun c => c.row_id == rid)) := by
  intro fuel
  induction fuel with
  | zero => intro pageNum cells h; cases h
  | succ f ih =>
    intro pageNum cells h
    rw [Database.collect_all_table_cells] at h
    rw [Database.search_table_for_row_id]
    cases hpd : db.read_page_data pageNum with
    | error e => rw [hpd] at h; cases h
    | ok pageData =>
      rw [hpd] at h
      dsimp only at h ⊢
      by_cases hoff : get_dbheader_offset pageNum ≥ pageData.length
      · rw [if_pos hoff] at h; cases h
      · rw [if_neg hoff] at h ⊢
        by_cases h13 : byteAt pageData (get_dbheader_offset pageNum) = 13
        · rw [if_pos h13] at h ⊢
          cases hoffs : Database.get_cell_offsets pageData pageNum with
          | error e => rw [hoffs] at h; cases h
          | ok offs =>
            rw [hoffs] at h
            dsimp only at h ⊢
            exact search_leaf_cells_eq pageData rid offs cells h
        · rw [if_neg h13] at h ⊢
          by_cases h5 : byteAt pageData (get_dbheader_offset pageNum) = 5
          · rw [if_pos h5] at h ⊢
            cases hch : Database.get_child_page_numbers pageData pageNum with
            | error e => rw [hch] at h; cases h
            | ok children =>
              rw [hch] at h
              dsimp only at h ⊢
              exact except_first_some_eq _ _ _ (fun x ys hx => ih x ys hx) children cells h
          · rw [if_neg h5] at h; cases h


theorem get_table_rows_inv (db : Database) (tbl : List Nat) (fuel : Nat) (tr : TableRows)
    (h : db.get_table_rows tbl fuel = .ok tr) :
    ∃ tinfo pageNum cells,
      db.find_table_info tbl = .ok tinfo
      ∧ db.get_col_names tbl = .ok tr.columns
      ∧ tinfo.record.get_page_number = .ok pageNum
      ∧ db.collect_all_table_cells fuel pageNum = .ok cells
      ∧ tr.rows = cells.map (fun c => Database.create_table_row c tr.columns) := by
  rw [Database.get_table_rows] at h
  cases h1 : db.find_table_info tbl with
  | error e => rw [h1] at h; cases h
  | ok tinfo =>
    rw [h1] at h
    dsimp only at h
    cases h2 : db.get_col_names tbl with
    | error e => rw [h2] at h; cases h
    | ok cols =>
      rw [h2] at h
      dsimp only at h
      cases h3 : tinfo.record.get_page_number with
      | error e => rw [h3] at h; cases h
      | ok pageNum =>
        rw [h3] at h
        dsimp only at h
        cases h4 : db.collect_all_table_cells fuel pageNum with
        | error e => rw [h4] at h; cases h
        | ok cells =>
          rw [h4] at h
          dsimp only at h
          cases h
          exact ⟨tinfo, pageNum, cells, rfl, rfl, h3, h4, rfl⟩

theorem get_table_row_by_id_eval (db : Database) (tbl : List Nat) (rid fuel : Nat)
    (tinfo : Cell) (cols : List ColumnInfo) (pageNum : Nat) (cells : List Cell)
    (h1 : db.find_table_info tbl = .ok tinfo)
    (h2 : db.get_col_names tbl = .ok cols)
    (h3 : tinfo.record.get_page_number = .ok pageNum)
    (h4 : db.collect_all_table_cells fuel pageNum = .ok cells) :
    db.get_table_row_by_id tbl rid fuel
      = .ok ((cells.find? (fun c => c.row_id == rid)).map
          (fun c => Database.create_table_row c cols)) := by
  rw [Database.get_table_row_by_id, h1]
  dsimp only
  rw [h2]
  dsimp only
  rw [h3]
  dsimp only
  rw [search_eq_find db rid fuel pageNum cells h4]
  cases hf : cells.find? (fun c => c.row_id == rid) with
  | some c => rfl
  | none => rfl

theorem rows_by_ids_eval (db : Database) (tbl : List Nat) (fuel : Nat)
    (tinfo : Cell) (cols : List ColumnInfo) (pageNum : Nat) (cells : List Cell)
    (h1 : db.find_table_info tbl = .ok tinfo)
    (h2 : db.get_col_names tbl = .ok cols)
    (h3 : tinfo.record.get_page_number = .ok pageNum)
    (h4 : db.collect_all_table_cells fuel pageNum = .ok cells) :
    ∀ rids, rows_by_ids_loop db tbl fuel rids
      = .ok (rids.filterMap (fun rid => (cells.find? (fun c => c.row_id == rid)).map
          (fun c => Database.create_table_row c cols))) := by
  intro rids
  induction rids with
  | nil => rfl
  | cons rid rest ih =>
    rw [rows_by_ids_loop, get_table_row_by_id_eval db tbl rid fuel tinfo cols pageNum cells
      h1 h2 h3 h4]
    cases hf : cells.find? (fun c => c.row_id == rid) with
    | some c =>
      dsimp only [Option.map_some']
      rw [ih]
      simp [List.filterMap_cons, hf]
    | none =>
      dsimp only [Option.map_none']
      rw [ih]
      simp [List.filterMap_cons, hf]

/-- Claim C9: whenever the catalog lookups succeed and the in-order
traversal of the table B-tree succeeds, `get_table_rows_by_ids` succeeds
and returns, in the order the ids were given, exactly one row per id that
some traversal cell carries (the first such cell), silently omitting every
id no cell carries. -/
theorem C9_rows_by_ids (db : Database) (tbl : List Nat) (rids : List Nat) (fuel : Nat)
    (tinfo : Cell) (cols : List ColumnInfo) (pageNum : Nat) (cells : List Cell)
    (h1 : db.find_table_info tbl = .ok tinfo)
    (h2 : db.get_col_names tbl = .ok cols)
    (h3 : tinfo.record.get_page_number = .ok pageNum)
    (h4 : db.collect_all_table_cells fuel pageNum = .ok cells) :
    db.get_table_rows_by_ids tbl rids fuel
      = .ok ⟨cols, rids.filterMap (fun rid => (cells.find? (fun c => c.row_id == rid)).map
          (fun c => Database.create_table_row c cols))⟩
    ∧ (∀ rid, cells.find? (fun c => c.row_id == rid) = none ↔ ∀ c ∈ cells, c.row_id ≠ rid) := by
  constructor
  · rw [Database.get_table_rows_by_ids, h2]
    dsimp only
    rw [rows_by_ids_eval db tbl fuel tinfo cols pageNum cells h1 h2 h3 h4]
  · intro rid
    rw [List.find?_eq_none]
    constructor
    · intro h c hc heq
      have := h c hc
      simp [heq] at this
    · intro h c hc
      simp [h c hc]

/-- The page-1 cell describing table `t` of the sample database. -/
def sampleTinfo : Cell :=
  ⟨37, 1, ⟨⟨6, [23, 15, 15, 1, 59]⟩,
    [.text (ascii ("table")), .text (ascii ("t")), .text (ascii ("t")), .int 2,
     .text (ascii ("CREATE TABLE t (c text)"))]⟩⟩

/-- The table-leaf cell of row `rid` of the sample database. -/
def sampleTCell (rid : Nat) : Cell := ⟨3, rid, ⟨⟨2, [15]⟩, [.text [97]]⟩⟩

/-- Witness for `C9_rows_by_ids`: looking up ids 3, 1 and the absent 99 in
the sample table returns rows 3 and 1 in that order. -/
theorem C9_witness :
    sampleDb.get_table_rows_by_ids (ascii ("t")) [3, 1, 99] 3
      = .ok ⟨sampleCols, [sampleRow 3, sampleRow 1]⟩ := by
  have h := (C9_rows_by_ids sampleDb (ascii ("t")) [3, 1, 99] 3 sampleTinfo sampleCols 2
    [sampleTCell 1, sampleTCell 2, sampleTCell 3]
    (by decide) (by decide) (by decide) (by decide)).1
  rw [h]
  decide

/-! ## Claim C5 -/

/-- Positional content of a constructed row: the row id as an `i64` at a
`primary key` column, otherwise the stored payload value (or `Null` past
the body). -/
theorem create_table_row_get (cell : Cell) (columns : List ColumnInfo) (j : Nat)
    (col : ColumnInfo) (h : columns.get? j = some col) :
    (Database.create_table_row cell columns).values.get? j
      = some (if col.is_primary_key then RecordValue.int (i64_of_u64 cell.row_id)
          else match cell.record.body.get? j with
            | some v => v
            | none => RecordValue.null) := by
  simp only [Database.create_table_row, List.get?_eq_getElem?, List.getElem?_map]
  have henum : columns.enum[j]? = some (j, col) := by
    rw [List.getElem?_enum]
    rw [List.get?_eq_getElem?] at h
    rw [h]
    rfl
  rw [henum]
  rfl

/-- Claim C5: every row `get_table_rows` or `get_table_row_by_id` returns
comes from a traversal cell; at every declared `primary key` column the row
holds `Int` of that cell's row id — regardless of what the payload stored
there, in particular a stored NULL is replaced — and at every other column
position the stored payload value is returned unchanged. -/
theorem C5_rowid_alias (db : Database) (tbl : List Nat) (fuel : Nat) (tr : TableRows)
    (h : db.get_table_rows tbl fuel = .ok tr) :
    (∀ row ∈ tr.rows, ∃ cell : Cell,
      row = Database.create_table_row cell tr.columns
      ∧ row.row_id = cell.row_id
      ∧ (∀ j col, tr.columns.get? j = some col → col.is_primary_key = true →
          row.values.get? j = some (RecordValue.int (i64_of_u64 cell.row_id)))
      ∧ (∀ j col v, tr.columns.get? j = some col → col.is_primary_key = false →
          cell.record.body.get? j = some v → row.values.get? j = some v))
    ∧ (∀ rid row, db.get_table_row_by_id tbl rid fuel = .ok (some row) →
        ∃ cell : Cell,
          row = Database.create_table_row cell tr.columns
          ∧ row.row_id = cell.row_id
          ∧ (∀ j col, tr.columns.get? j = some col → col.is_primary_key = true →
              row.values.get? j = some (RecordValue.int (i64_of_u64 cell.row_id)))
          ∧ (∀ j col v, tr.columns.get? j = some col → col.is_primary_key = false →
              cell.record.body.get? j = some v → row.values.get? j = some v)) := by
  obtain ⟨tinfo, pageNum, cells, h1, h2, h3, h4, hrows⟩ := get_table_rows_inv db tbl fuel tr h
  have hprop : ∀ cell : Cell,
      ((Database.create_table_row cell tr.columns).row_id = cell.row_id)
      ∧ (∀ j col, tr.columns.get? j = some col → col.is_primary_key = true →
          (Database.create_table_row cell tr.columns).values.get? j
            = some (RecordValue.int (i64_of_u64 cell.row_id)))
      ∧ (∀ j col v, tr.columns.get? j = some col → col.is_primary_key = false →
          cell.record.body.get? j = some v →
          (Database.create_table_row cell tr.columns).values.get? j = some v) := by
    intro cell
    refine ⟨rfl, ?_, ?_⟩
    · intro j col hj hpk
      rw [create_table_row_get cell tr.columns j col hj, hpk]
      simp
    · intro j col v hj hpk hv
      rw [create_table_row_get cell tr.columns j col hj, hpk, hv]
      simp
  constructor
  · intro row hrow
    rw [hrows] at hrow
    obtain ⟨cell, hcell, hceq⟩ := List.mem_map.1 hrow
    subst hceq
    exact ⟨cell, rfl, (hprop cell).1, (hprop cell).2.1, (hprop cell).2.2⟩
  · intro rid row hbyid
    rw [get_table_row_by_id_eval db tbl rid fuel tinfo tr.columns pageNum cells
      h1 h2 h3 h4] at hbyid
    cases hf : cells.find? (fun c => c.row_id == rid) with
    | none => rw [hf] at hbyid; simp at hbyid
    | some cell =>
      rw [hf] at hbyid
      simp only [Option.map_some'] at hbyid
      have hreq : Database.create_table_row cell tr.columns = row := by
        have := Except.ok.inj hbyid
        exact Option.some.inj this
      subst hreq
      exact ⟨cell, rfl, (hprop cell).1, (hprop cell).2.1, (hprop cell).2.2⟩

/-- Schema record of table `t2` with a declared INTEGER PRIMARY KEY. -/
def pk_record : List Nat :=
  [6, 23, 17, 17, 1, 109] ++ ascii ("table") ++ ascii ("t2") ++ ascii ("t2") ++ [2]
    ++ ascii ("CREATE TABLE t2 (id integer primary key, c text)")

/-- A table-leaf cell storing `(NULL, "a")` — the payload keeps NULL in the
row-id alias column. -/
def pk_tcell (rid : Nat) : List Nat := [4, rid, 3, 0, 15, 97]

/-- Page 1 of the primary-key sample: one schema row for `t2`, root page 2. -/
def pk_page1 : List Nat :=
  (pad 16 ++ [2, 0] ++ pad 82)
    ++ [13, 0, 0, 0, 1, 1, 190, 0] ++ [1, 190] ++ pad 336 ++ ([64, 1] ++ pk_record)

/-- Page 2 of the primary-key sample: rows 1 and 2. -/
def pk_page2 : List Nat :=
  [13, 0, 0, 0, 2, 1, 244, 0] ++ [1, 244, 1, 250] ++ pad 488 ++ pk_tcell 1 ++ pk_tcell 2

/-- The two-page primary-key database. -/
def pkDb : Database := ⟨pk_page1 ++ pk_page2, 512⟩

/-- Witness for `C5_rowid_alias`: in the primary-key sample the payload of
row 1 stores `(NULL, "a")`, yet the returned row holds `Int 1` — the row
id — at the alias position. -/
theorem C5_witness :
    pkDb.get_table_rows (ascii ("t2")) 3
      = .ok ⟨[⟨ascii ("id"), 0, true⟩, ⟨ascii ("c"), 1, false⟩],
          [⟨1, [.int 1, .text [97]]⟩, ⟨2, [.int 2, .text [97]]⟩]⟩
    ∧ ∃ cell : Cell,
        (⟨1, [RecordValue.int 1, RecordValue.text [97]]⟩ : TableRow)
          = Database.create_table_row cell
              ((⟨[⟨ascii ("id"), 0, true⟩, ⟨ascii ("c"), 1, false⟩],
                [⟨1, [.int 1, .text [97]]⟩, ⟨2, [.int 2, .text [97]]⟩]⟩ : TableRows).columns)
        ∧ (⟨1, [RecordValue.int 1, RecordValue.text [97]]⟩ : TableRow).row_id = cell.row_id
        ∧ (∀ j col,
            ((⟨[⟨ascii ("id"), 0, true⟩, ⟨ascii ("c"), 1, false⟩],
              [⟨1, [.int 1, .text [97]]⟩, ⟨2, [.int 2, .text [97]]⟩]⟩ : TableRows).columns.get? j
              = some col → col.is_primary_key = true →
            (⟨1, [RecordValue.int 1, RecordValue.text [97]]⟩ : TableRow).values.get? j
              = some (RecordValue.int (i64_of_u64 cell.row_id))))
        ∧ (∀ j col v,
            ((⟨[⟨ascii ("id"), 0, true⟩, ⟨ascii ("c"), 1, false⟩],
              [⟨1, [.int 1, .text [97]]⟩, ⟨2, [.int 2, .text [97]]⟩]⟩ : TableRows).columns.get? j
              = some col → col.is_primary_key = false →
            cell.record.body.get? j = some v →
            (⟨1, [RecordValue.int 1, RecordValue.text [97]]⟩ : TableRow).values.get? j
              = some v)) := by
  refine ⟨by decide, ?_⟩
  exact (C5_rowid_alias pkDb (ascii ("t2")) 3
      ⟨[⟨ascii ("id"), 0, true⟩, ⟨ascii ("c"), 1, false⟩],
        [⟨1, [.int 1, .text [97]]⟩, ⟨2, [.int 2, .text [97]]⟩]⟩ (by decide)).1
    ⟨1, [RecordValue.int 1, RecordValue.text [97]]⟩ (by decide)

/-! ## Claim C4 -/

/-- Exclusive optional lower bound (`none` is unbounded). -/
def opt_lt (lo : Option Nat) (r : Nat) : Bool :=
  match lo with
  | none => true
  | some l => l < r

/-- Inclusive optional upper bound (`none` is unbounded). -/
def opt_le (r : Nat) (hi : Option Nat) : Bool :=
  match hi with
  | none => true
  | some h => r ≤ h

/-- Strictly ascending row ids, all within the bounds `(lo, hi]`. -/
def rows_ascending_in : Option Nat → Option Nat → List Nat → Bool
  | _, _, [] => true
  | lo, hi, r :: rs => opt_lt lo r && opt_le r hi && rows_ascending_in (some r) hi rs

/-- Parse each interior table cell as `(left child page, row-id key)`: the
4-byte big-endian child pointer, then the key varint. -/
def interior_entries (pageData : List Nat) : List Nat → RsResult (List (Nat × Nat))
  | [] => .ok []
  | o :: os =>
    match Database.read_page_number_from_cell pageData o with
    | .error e => .error e
    | .ok child =>
      match read_varint pageData (o + 4) with
      | .error e => .error e
      | .ok (k, _) =>
        match interior_entries pageData os with
        | .error e => .error e
        | .ok rest => .ok ((child, k) :: rest)

/-- The per-entry part of the key-ordering invariant, over a given child
checker: each key lies in `(lo, hi]`, each left subtree is good under
`(running lo, key]`, and the rightmost child is good under `(last key, hi]`. -/
def good_entries_f (goodChild : Nat → Option Nat → Option Nat → Bool) (hi : Option Nat)
    (rightmost : Nat) : List (Nat × Nat) → Option Nat → Bool
  | [], lo => goodChild rightmost lo hi
  | e :: rest, lo =>
    opt_lt lo e.2 && opt_le e.2 hi && goodChild e.1 lo (some e.2)
      && good_entries_f goodChild hi rightmost rest (some e.2)

/-- The table B-tree key-ordering invariant under the bounds `(lo, hi]`,
checked over the same byte-level reads the traversal performs: pages read
and parse; leaf cells carry strictly ascending row ids within bounds; an
interior page's cells parse as `(child, key)` entries whose keys lie within
bounds and bound their left subtrees, the rightmost child holding the rest. -/
def good_table_page (db : Database) : Nat → Nat → Option Nat → Option Nat → Bool
  | 0, _, _, _ => false
  | fuel + 1, pageNum, lo, hi =>
    match db.read_page_data pageNum with
    | .error _ => false
    | .ok pageData =>
      let off := get_dbheader_offset pageNum
      if off ≥ pageData.length then false
      else if byteAt pageData off = 13 then
        match Database.get_cell_offsets pageData pageNum with
        | .error _ => false
        | .ok offs =>
          match cells_from_offsets pageData offs with
          | .error _ => false
          | .ok cells => rows_ascending_in lo hi (cells.map (fun c => c.row_id))
      else if byteAt pageData off = 5 then
        match Database.get_cell_count pageData pageNum with
        | .error _ => false
        | .ok cc =>
          if off + 12 + cc * 2 > pageData.length then false
          else
            match Database.read_rightmost_page pageData off with
            | .error _ => false
            | .ok rightmost =>
              match interior_entries pageData ((List.range cc).map (fun i =>
                  u16_be (byteAt pageData (off + 12 + 2 * i))
                    (byteAt pageData (off + 12 + 2 * i + 1)))) with
              | .error _ => false
              | .ok entries =>
                good_entries_f (fun child l h => good_table_page db fuel child l h)
                  hi rightmost entries lo
      else false


theorem opt_lt_of_lt (lo : Option Nat) (k r : Nat) (h1 : opt_lt lo k = true) (h2 : k < r) :
    opt_lt lo r = true := by
  cases lo with
  | none => rfl
  | some l => simp [opt_lt] at h1 ⊢; omega

theorem opt_le_of_le (hi : Option Nat) (r k : Nat) (h1 : r ≤ k) (h2 : opt_le k hi = true) :
    opt_le r hi = true := by
  cases hi with
  | none => rfl
  | some h => simp [opt_le] at h2 ⊢; omega

theorem rows_ascending_spec : ∀ (rids : List Nat) (lo hi : Option Nat),
    rows_ascending_in lo hi rids = true →
    List.Pairwise (· < ·) rids ∧ ∀ r ∈ rids, opt_lt lo r = true ∧ opt_le r hi = true := by
  intro rids
  induction rids with
  | nil => intro lo hi _; exact ⟨List.Pairwise.nil, by simp⟩
  | cons r rs ih =>
    intro lo hi h
    rw [rows_ascending_in] at h
    simp only [Bool.and_eq_true] at h
    obtain ⟨⟨hlo, hhi⟩, hrest⟩ := h
    obtain ⟨hpair, hbounds⟩ := ih (some r) hi hrest
    constructor
    · refine List.Pairwise.cons ?_ hpair
      intro b hb
      have := (hbounds b hb).1
      simpa [opt_lt] using this
    · intro x hx
      rcases List.mem_cons.1 hx with heq | hmem
      · subst heq; exact ⟨hlo, hhi⟩
      · obtain ⟨hl, hh⟩ := hbounds x hmem
        refine ⟨?_, hh⟩
        have hrx : r < x := by simpa [opt_lt] using hl
        exact opt_lt_of_lt lo r x hlo hrx

theorem interior_entries_children (pageData : List Nat) : ∀ offs entries,
    interior_entries pageData offs = .ok entries →
    offs.filterMap (fun o => (Database.read_page_number_from_cell pageData o).toOption)
      = entries.map (fun e => e.1) := by
  intro offs
  induction offs with
  | nil => intro entries h; cases h; rfl
  | cons o os ih =>
    intro entries h
    rw [interior_entries] at h
    cases hc : Database.read_page_number_from_cell pageData o with
    | error e => rw [hc] at h; cases h
    | ok child =>
      rw [hc] at h
      cases hk : read_varint pageData (o + 4) with
      | error e => rw [hk] at h; cases h
      | ok kp =>
        rw [hk] at h
        cases hrest : interior_entries pageData os with
        | error e => rw [hrest] at h; cases h
        | ok rest =>
          rw [hrest] at h
          cases h
          rw [List.filterMap_cons, hc]
          dsimp only [Except.toOption]
          exact congrArg (fun l => child :: l) (ih rest hrest)


theorem good_entries_collect (db : Database) (fuel : Nat)
    (IH : ∀ pageNum lo hi, good_table_page db fuel pageNum lo hi = true →
      ∃ cells, db.collect_all_table_cells fuel pageNum = .ok cells
        ∧ List.Pairwise (· < ·) (cells.map (fun c => c.row_id))
        ∧ ∀ c ∈ cells, opt_lt lo c.row_id = true ∧ opt_le c.row_id hi = true) :
    ∀ entries lo hi rightmost,
    good_entries_f (fun child l h => good_table_page db fuel child l h)
      hi rightmost entries lo = true →
    ∃ cells, except_map_list (fun c => db.collect_all_table_cells fuel c)
        (entries.map (fun e => e.1) ++ [rightmost]) = .ok cells
      ∧ List.Pairwise (· < ·) (cells.map (fun c => c.row_id))
      ∧ ∀ c ∈ cells, opt_lt lo c.row_id = true ∧ opt_le c.row_id hi = true := by
  intro entries
  induction entries with
  | nil =>
    intro lo hi rightmost h
    rw [good_entries_f] at h
    obtain ⟨cells, hcoll, hpair, hbounds⟩ := IH rightmost lo hi h
    refine ⟨cells, ?_, hpair, hbounds⟩
    simp only [List.map_nil, List.nil_append, except_map_list, hcoll]
    simp
  | cons e rest ih =>
    intro lo hi rightmost h
    rw [good_entries_f] at h
    simp only [Bool.and_eq_true] at h
    obtain ⟨⟨⟨hklo, hkhi⟩, hchild⟩, hrest⟩ := h
    obtain ⟨cellsC, hcollC, hpairC, hboundsC⟩ := IH e.1 lo (some e.2) hchild
    obtain ⟨cellsR, hcollR, hpairR, hboundsR⟩ := ih (some e.2) hi rightmost hrest
    refine ⟨cellsC ++ cellsR, ?_, ?_, ?_⟩
    · simp only [List.map_cons, List.cons_append, except_map_list]
      rw [hcollC]
      dsimp only
      simp only [List.append_eq]
      rw [hcollR]
    · rw [List.map_append, List.pairwise_append]
      refine ⟨hpairC, hpairR, ?_⟩
      intro a ha b hb
      obtain ⟨ca, hca, hae⟩ := List.mem_map.1 ha
      obtain ⟨cb, hcb, hbe⟩ := List.mem_map.1 hb
      have h1 : opt_le ca.row_id (some e.2) = true := (hboundsC ca hca).2
      have h2 : opt_lt (some e.2) cb.row_id = true := (hboundsR cb hcb).1
      simp only [opt_le, opt_lt, decide_eq_true_eq] at h1 h2
      subst hae hbe
      omega
    · intro c hc
      rcases List.mem_append.1 hc with hmem | hmem
      · obtain ⟨hl, hh⟩ := hboundsC c hmem
        refine ⟨hl, ?_⟩
        have : c.row_id ≤ e.2 := by simpa [opt_le] using hh
        exact opt_le_of_le hi c.row_id e.2 this hkhi
      · obtain ⟨hl, hh⟩ := hboundsR c hmem
        refine ⟨?_, hh⟩
        have : e.2 < c.row_id := by simpa [opt_lt] using hl
        exact opt_lt_of_lt lo e.2 c.row_id hklo this


theorem good_table_collect (db : Database) : ∀ fuel pageNum lo hi,
    good_table_page db fuel pageNum lo hi = true →
    ∃ cells, db.collect_all_table_cells fuel pageNum = .ok cells
      ∧ List.Pairwise (· < ·) (cells.map (fun c => c.row_id))
      ∧ ∀ c ∈ cells, opt_lt lo c.row_id = true ∧ opt_le c.row_id hi = true := by
  intro fuel
  induction fuel with
  | zero =>
    intro pageNum lo hi h
    rw [good_table_page] at h
    cases h
  | succ f ihf =>
    intro pageNum lo hi h
    rw [good_table_page] at h
    rw [Database.collect_all_table_cells]
    cases hpd : db.read_page_data pageNum with
    | error e => rw [hpd] at h; simp at h
    | ok pageData =>
      rw [hpd] at h
      dsimp only at h ⊢
      by_cases hoff : get_dbheader_offset pageNum ≥ pageData.length
      · rw [if_pos hoff] at h; simp at h
      · rw [if_neg hoff] at h ⊢
        by_cases h13 : byteAt pageData (get_dbheader_offset pageNum) = 13
        · rw [if_pos h13] at h ⊢
          cases hoffs : Database.get_cell_offsets pageData pageNum with
          | error e => rw [hoffs] at h; simp at h
          | ok offs =>
            rw [hoffs] at h
            dsimp only at h ⊢
            cases hcells : cells_from_offsets pageData offs with
            | error e => rw [hcells] at h; simp at h
            | ok cells =>
              rw [hcells] at h
              dsimp only at h
              obtain ⟨hpair, hbounds⟩ := rows_ascending_spec _ lo hi h
              exact ⟨cells, rfl, hpair,
                fun c hc => hbounds c.row_id (List.mem_map_of_mem _ hc)⟩
        · rw [if_neg h13] at h ⊢
          by_cases h5 : byteAt pageData (get_dbheader_offset pageNum) = 5
          · rw [if_pos h5] at h ⊢
            cases hcc : Database.get_cell_count pageData pageNum with
            | error e => rw [hcc] at h; simp at h
            | ok cc =>
              rw [hcc] at h
              dsimp only at h
              by_cases hptr : get_dbheader_offset pageNum + 12 + cc * 2 > pageData.length
              · rw [if_pos hptr] at h; simp at h
              · rw [if_neg hptr] at h
                cases hrm : Database.read_rightmost_page pageData (get_dbheader_offset pageNum) with
                | error e => rw [hrm] at h; simp at h
                | ok rightmost =>
                  rw [hrm] at h
                  dsimp only at h
                  cases hent : interior_entries pageData ((List.range cc).map (fun i =>
                      u16_be (byteAt pageData (get_dbheader_offset pageNum + 12 + 2 * i))
                        (byteAt pageData (get_dbheader_offset pageNum + 12 + 2 * i + 1)))) with
                  | error e => rw [hent] at h; simp at h
                  | ok entries =>
                    rw [hent] at h
                    dsimp only at h
                    obtain ⟨cells, hmap, hpair, hbounds⟩ :=
                      good_entries_collect db f ihf entries lo hi rightmost h
                    have hch : Database.get_child_page_numbers pageData pageNum
                        = .ok (entries.map (fun e => e.1) ++ [rightmost]) := by
                      rw [Database.get_child_page_numbers, hcc]
                      dsimp only
                      rw [if_neg hptr, hrm]
                      dsimp only
                      rw [interior_entries_children pageData _ entries hent]
                    rw [hch]
                    dsimp only
                    exact ⟨cells, hmap, hpair, hbounds⟩
          · rw [if_neg h5] at h
            simp at h


/-- Claim C4: on a database whose table B-tree rooted at `rootPage`
satisfies the key-ordering invariant `good_table_page` (interior keys bound
their left subtrees, leaves ascending), the traversal
`collect_all_table_cells` — leaf cells in cell-pointer order, interior
left children in cell-pointer order then the rightmost child — succeeds
and yields strictly ascending row ids, all within the bounds. -/
theorem C4_inorder_ascending (db : Database) (fuel rootPage : Nat) (lo hi : Option Nat)
    (h : good_table_page db fuel rootPage lo hi = true) :
    ∃ cells, db.collect_all_table_cells fuel rootPage = .ok cells
      ∧ List.Pairwise (· < ·) (cells.map (fun c => c.row_id))
      ∧ ∀ c ∈ cells, opt_lt lo c.row_id = true ∧ opt_le c.row_id hi = true :=
  good_table_collect db fuel rootPage lo hi h

/-- Page 2 of the three-level table sample: interior root, one cell
`(child 3, key 2)`, rightmost child 4. -/
def t_page2 : List Nat :=
  [5, 0, 0, 0, 1, 0, 0, 0, 0, 0, 0, 4] ++ [1, 251] ++ pad 493 ++ [0, 0, 0, 3, 2]

/-- Page 3: table leaf with rows 1 and 2. -/
def t_page3 : List Nat :=
  [13, 0, 0, 0, 2, 1, 246, 0] ++ [1, 246, 1, 251] ++ pad 490 ++ sample_tcell 1 ++ sample_tcell 2

/-- Page 4: table leaf with row 3. -/
def t_page4 : List Nat :=
  [13, 0, 0, 0, 1, 1, 251, 0] ++ [1, 251] ++ pad 497 ++ sample_tcell 3

/-- A database whose table B-tree root (page 2) is an interior node over
two leaves. -/
def tableDb : Database := ⟨pad 512 ++ t_page2 ++ t_page3 ++ t_page4, 512⟩

/-- Witness for `C4_inorder_ascending` on the two-level sample B-tree. -/
theorem C4_witness :
    good_table_page tableDb 3 2 none none = true
    ∧ tableDb.collect_all_table_cells 3 2 = .ok [sampleTCell 1, sampleTCell 2, sampleTCell 3]
    ∧ ∃ cells, tableDb.collect_all_table_cells 3 2 = .ok cells
        ∧ List.Pairwise (· < ·) (cells.map (fun c => c.row_id))
        ∧ ∀ c ∈ cells, opt_lt none c.row_id = true ∧ opt_le c.row_id none = true :=
  ⟨by decide, by decide, C4_inorder_ascending tableDb 3 2 none none (by decide)⟩


/-! ## Claim C1 (amended) -/

/-- The row predicate `apply_where_filter` filters with, at a resolved
column index. -/
def row_matches (cond : WhereCondition) (ci : Nat) (row : TableRow) : Bool :=
  match row.values.get? ci with
  | some v => cond.matches v
  | none => false

/-- When every cell offset of the page parses to an index cell, the leaf
probe of `search_index_leaf_page_stack` is the key-filtered row-id list of
those cells. -/
theorem filtermap_parsed (pageData searchValue : List Nat) : ∀ (offs : List Nat)
    (icells : List IndexCell),
    offs.map (fun o => Database.read_index_cell pageData o) = icells.map (fun c => Except.ok c) →
    offs.filterMap (fun o =>
        match Database.read_index_cell pageData o with
        | .ok c => if c.key == searchValue then some c.row_id else none
        | .error _ => none)
      = icells.filterMap (fun c => if c.key == searchValue then some c.row_id else none) := by
  intro offs
  induction offs with
  | nil =>
    intro icells h
    cases icells with
    | nil => rfl
    | cons c cs => simp at h
  | cons o os ih =>
    intro icells h
    cases icells with
    | nil => simp at h
    | cons c cs =>
      simp only [List.map_cons, List.cons.injEq] at h
      obtain ⟨h1, h2⟩ := h
      rw [List.filterMap_cons, List.filterMap_cons, h1, ih cs h2]

/-- Membership in the key-filtered row-id list of a leaf. -/
theorem mem_index_filterMap (icells : List IndexCell) (v : List Nat) (rid : Nat) :
    rid ∈ icells.filterMap (fun c => if c.key == v then some c.row_id else none)
      ↔ ∃ ic ∈ icells, ic.key = v ∧ ic.row_id = rid := by
  rw [List.mem_filterMap]
  constructor
  · rintro ⟨ic, hic, hif⟩
    by_cases hk : ic.key = v
    · refine ⟨ic, hic, hk, ?_⟩
      rw [if_pos (by simp [hk])] at hif
      exact Option.some.inj hif
    · rw [if_neg (by simp [hk])] at hif
      cases hif
  · rintro ⟨ic, hic, hk, hr⟩
    exact ⟨ic, hic, by rw [if_pos (by simp [hk]), hr]⟩


/-- Claim C1, amended: the claimed scan/index equivalence does hold when the
index B-tree is a single leaf page whose entries correspond exactly to the
matching table rows.  Precisely: if the full scan succeeds, the condition is
an equality whose column resolves at index `ci`, the index root page is a
leaf (page type 10) whose cells all parse, every leaf entry carrying the
search key corresponds to a table row with that row id which satisfies the
condition and conversely every satisfying row has such a leaf entry, and row
ids are distinct, then `select_index_path` succeeds with the same columns
and exactly the rows the full-scan path `select_full_scan_path` returns
after filtering. -/
theorem C1_amended (db : Database) (tbl : List Nat) (cond : WhereCondition)
    (idx : SchemaObject) (fuel ci : Nat) (tr : TableRows)
    (pageData : List Nat) (offs : List Nat) (icells : List IndexCell)
    (hscan : db.get_table_rows tbl fuel = .ok tr)
    (hop : cond.operator = .equal)
    (hci : tr.columns.findIdx? (fun col => eq_icase col.name cond.column_name) = some ci)
    (hpd : db.read_page_data idx.rootpage = .ok pageData)
    (hoff : get_dbheader_offset idx.rootpage < pageData.length)
    (htype : byteAt pageData (get_dbheader_offset idx.rootpage) = 10)
    (hoffs : Database.get_cell_offsets pageData idx.rootpage = .ok offs)
    (hparse : offs.map (fun o => Database.read_index_cell pageData o)
      = icells.map (fun c => Except.ok c))
    (hfwd : ∀ ic ∈ icells, ic.key = cond.value →
      ∃ row ∈ tr.rows, row.row_id = ic.row_id ∧ row_matches cond ci row = true)
    (hbwd : ∀ row ∈ tr.rows, row_matches cond ci row = true →
      ∃ ic ∈ icells, ic.key = cond.value ∧ ic.row_id = row.row_id)
    (hnodup : (tr.rows.map (fun r => r.row_id)).Nodup) :
    ∃ rowsIdx,
      select_index_path db tbl cond idx fuel = .ok ⟨tr.columns, rowsIdx⟩
      ∧ select_full_scan_path db tbl cond fuel
          = .ok ⟨tr.columns, tr.rows.filter (fun row => row_matches cond ci row)⟩
      ∧ ∀ row, row ∈ rowsIdx ↔ row ∈ tr.rows.filter (fun row => row_matches cond ci row) := by
  obtain ⟨tinfo, pageNum, cells, h1, h2, h3, h4, hrows⟩ := get_table_rows_inv db tbl fuel tr hscan
  -- the traversal consumed at least one unit of fuel
  obtain ⟨f, hf⟩ : ∃ f, fuel = f + 1 := by
    cases fuel with
    | zero => rw [Database.collect_all_table_cells] at h4; cases h4
    | succ f => exact ⟨f, rfl⟩
  -- cell row ids are distinct
  have hkeep : ∀ c : Cell, (Database.create_table_row c tr.columns).row_id = c.row_id :=
    fun c => rfl
  have hnodc : (cells.map (fun c => c.row_id)).Nodup := by
    have heq : tr.rows.map (fun r => r.row_id) = cells.map (fun c => c.row_id) := by
      rw [hrows, List.map_map]
      rfl
    rwa [heq] at hnodup
  have hinj := List.inj_on_of_nodup_map hnodc
  -- the index probe returns exactly the row ids of the matching leaf entries
  have hsearch : db.search_index idx cond.value fuel
      = .ok (icells.filterMap (fun c => if c.key == cond.value then some c.row_id else none)) := by
    rw [Database.search_index, hf, Database.traverse_index_for_value, hpd]
    dsimp only
    rw [if_neg (by omega), if_pos htype]
    rw [Database.search_index_leaf_page_stack, hoffs]
    dsimp only
    rw [filtermap_parsed pageData cond.value offs icells hparse]
  -- the index path result
  have hidx : select_index_path db tbl cond idx fuel
      = .ok ⟨tr.columns,
          (icells.filterMap (fun c => if c.key == cond.value then some c.row_id else none)).filterMap
            (fun rid => (cells.find? (fun c => c.row_id == rid)).map
              (fun c => Database.create_table_row c tr.columns))⟩ := by
    rw [select_index_path, hsearch]
    dsimp only
    rw [Database.get_table_rows_by_ids, h2]
    dsimp only
    rw [rows_by_ids_eval db tbl fuel tinfo tr.columns pageNum cells h1 h2 h3 h4]
  -- the scan path result
  have hfil : select_full_scan_path db tbl cond fuel
      = .ok ⟨tr.columns, tr.rows.filter (fun row => row_matches cond ci row)⟩ := by
    rw [select_full_scan_path, hscan]
    dsimp only
    rw [apply_where_filter, hci]
    rfl
  refine ⟨_, hidx, hfil, ?_⟩
  intro row
  constructor
  · intro hmem
    obtain ⟨rid, hrid, hfind⟩ := List.mem_filterMap.1 hmem
    obtain ⟨c, hfc, hcr⟩ := Option.map_eq_some'.1 hfind
    have hcrid := List.find?_some hfc
    have hcmem : c ∈ cells := List.mem_of_find?_eq_some hfc
    obtain ⟨ic, hicm, hick, hicr⟩ := (mem_index_filterMap icells cond.value rid).1 hrid
    obtain ⟨row2, hrow2, hr2id, hr2m⟩ := hfwd ic hicm hick
    obtain ⟨c2, hc2, hc2eq⟩ := List.mem_map.1 (by rw [hrows] at hrow2; exact hrow2)
    have hc2rid : c2.row_id = rid := by
      have h5 : c2.row_id = row2.row_id := by
        rw [← hc2eq]
        exact (hkeep c2).symm
      rw [h5, hr2id, hicr]
    have hceq : c2 = c := hinj hc2 hcmem (by
      rw [hc2rid]
      simp only [beq_iff_eq] at hcrid
      omega)
    have hro : row = row2 := by
      rw [← hcr, ← hceq]
      exact hc2eq
    rw [List.mem_filter, hro]
    exact ⟨hrow2, hr2m⟩
  · intro hmem
    rw [List.mem_filter] at hmem
    obtain ⟨hrmem, hrm⟩ := hmem
    obtain ⟨ic, hicm, hick, hicr⟩ := hbwd row hrmem hrm
    obtain ⟨c, hc, hceq⟩ := List.mem_map.1 (by rw [hrows] at hrmem; exact hrmem)
    have hcrid : c.row_id = row.row_id := by
      rw [← hceq]
      exact (hkeep c).symm
    rw [List.mem_filterMap]
    refine ⟨row.row_id, (mem_index_filterMap icells cond.value row.row_id).2
      ⟨ic, hicm, hick, hicr⟩, ?_⟩
    have hfsome : (cells.find? (fun c2 => c2.row_id == row.row_id)).isSome := by
      rw [List.find?_isSome]
      exact ⟨c, hc, by simp [hcrid]⟩
    obtain ⟨c3, hc3⟩ := Option.isSome_iff_exists.1 hfsome
    have hc3rid := List.find?_some hc3
    have hc3mem : c3 ∈ cells := List.mem_of_find?_eq_some hc3
    have hc3eq : c3 = c := hinj hc3mem hc (by
      simp only [beq_iff_eq] at hc3rid
      rw [hc3rid, hcrid])
    rw [hc3, Option.map_some', hc3eq]
    exact congrArg some hceq

/-- A single-leaf index B-tree page for `idx`: three cells `("a", 1)`,
`("a", 2)`, `("a", 3)` at offsets 494, 500, 506. -/
def page3L : List Nat :=
  [10, 0, 0, 0, 3, 1, 238, 0] ++ [1, 238, 1, 244, 1, 250] ++ pad 480
    ++ [5, 3, 15, 1, 97, 1] ++ [5, 3, 15, 1, 97, 2] ++ [5, 3, 15, 1, 97, 3]

/-- The three-page database whose index B-tree is the single leaf `page3L`. -/
def leafIdxDb : Database := ⟨sample_page1 ++ sample_page2 ++ page3L, 512⟩

theorem C1_amended_witness :
    ∃ rowsIdx,
      select_index_path leafIdxDb (ascii ("t")) sampleCond sampleIdxObj 3
        = .ok ⟨sampleCols, rowsIdx⟩
      ∧ select_full_scan_path leafIdxDb (ascii ("t")) sampleCond 3
          = .ok ⟨sampleCols,
              [sampleRow 1, sampleRow 2, sampleRow 3].filter
                (fun row => row_matches sampleCond 0 row)⟩
      ∧ ∀ row, row ∈ rowsIdx
          ↔ row ∈ [sampleRow 1, sampleRow 2, sampleRow 3].filter
              (fun row => row_matches sampleCond 0 row) :=
  C1_amended leafIdxDb (ascii ("t")) sampleCond sampleIdxObj 3 0
    ⟨sampleCols, [sampleRow 1, sampleRow 2, sampleRow 3]⟩ page3L [494, 500, 506]
    [⟨[97], 1⟩, ⟨[97], 2⟩, ⟨[97], 3⟩]
    (by decide) rfl (by decide) (by decide) (by decide) (by decide) (by decide)
    (by decide) (by decide) (by decide) (by decide)

end SqliteRs
